import Mathlib

/-
Verification development for the Nexus AI Gateway routing and resilience
engine.  The definitions below are a shallow embedding of the gateway
source (the main server file: configuration, circuit breaker, health
scorer, selector, streaming failover loop, lifecycle counters, message
validation).  JavaScript numbers that are used as integer millisecond
timestamps and counters are modelled as `Nat`; the fractional health
scores are modelled as `ℚ`; JS strings used by the scorer are modelled as
`List Char`.  Mutation of per-service state is modelled by explicit state
passing.  Wall-clock reads (`Date.now()`), the random draw of the smart
selector, the abort flag, and adapter behaviour are inputs supplied by an
adversarial environment.
-/

namespace Nexus

/-- Circuit breaker state tag (`type CircuitState` in the source). -/
inductive CircuitState
  | CLOSED
  | OPEN
  | HALF_OPEN
deriving DecidableEq

/-- `interface CircuitBreakerState`: state, consecutive-failure counter,
optional last-failure timestamp (ms), half-open attempt counter. -/
structure CircuitBreakerState where
  state : CircuitState
  failures : Nat
  lastFailureTime : Option Nat
  halfOpenAttempts : Nat
deriving DecidableEq

/-- `CONFIG.circuitBreaker.failureThreshold` (3 failures open the circuit). -/
def failureThreshold : Nat := 3

/-- `CONFIG.circuitBreaker.resetTimeoutMs` (60 000 ms before a half-open probe). -/
def resetTimeoutMs : Nat := 60000

/-- `CONFIG.circuitBreaker.halfOpenMaxAttempts` (1 request allowed half-open). -/
def halfOpenMaxAttempts : Nat := 1

/-- `CONFIG.errorPenaltyDurationMs` (recent-error penalty window, 30 000 ms). -/
def errorPenaltyDurationMs : Nat := 30000

/-- `CONFIG.minRequestsForScoring` (below this, a service gets the base score). -/
def minRequestsForScoring : Nat := 3

/-- Availability check `isServiceAvailable`, on the breaker component.  It can
mutate the breaker (the OPEN to HALF_OPEN transition), so it returns the
updated breaker next to the boolean.  The JS guard
`cb.lastFailureTime && (now - cb.lastFailureTime) >= resetTimeoutMs`
treats an absent or zero timestamp as falsy, and the comparison
`now - t >= 60000` over JS numbers holds exactly when `t + 60000 ≤ now`,
which over `Nat` is `resetTimeoutMs ≤ now - t`. -/
def isServiceAvailable (now : Nat) (cb : CircuitBreakerState) :
    Bool × CircuitBreakerState :=
  match cb.state with
  | .CLOSED => (true, cb)
  | .OPEN =>
    match cb.lastFailureTime with
    | some t =>
      if t ≠ 0 ∧ resetTimeoutMs ≤ now - t then
        (true, { cb with state := .HALF_OPEN, halfOpenAttempts := 0 })
      else (false, cb)
    | none => (false, cb)
  | .HALF_OPEN => (decide (cb.halfOpenAttempts < halfOpenMaxAttempts), cb)

/-- `recordSuccess`: HALF_OPEN closes the circuit and clears both counters;
CLOSED decays the failure counter (`Math.max(0, failures - 1)` is `Nat`
subtraction); OPEN is untouched. -/
def recordSuccess (cb : CircuitBreakerState) : CircuitBreakerState :=
  match cb.state with
  | .HALF_OPEN => { cb with state := .CLOSED, failures := 0, halfOpenAttempts := 0 }
  | .CLOSED => { cb with failures := cb.failures - 1 }
  | .OPEN => cb

/-- `recordFailure`: always refreshes `lastFailureTime`; HALF_OPEN reopens the
circuit and clears the half-open counter; CLOSED increments `failures` and
opens the circuit when the threshold is reached. -/
def recordFailure (now : Nat) (cb : CircuitBreakerState) : CircuitBreakerState :=
  let cb1 := { cb with lastFailureTime := some now }
  match cb1.state with
  | .HALF_OPEN => { cb1 with state := .OPEN, halfOpenAttempts := 0 }
  | .CLOSED =>
    if failureThreshold ≤ cb1.failures + 1 then
      { cb1 with failures := cb1.failures + 1, state := .OPEN }
    else { cb1 with failures := cb1.failures + 1 }
  | .OPEN => cb1

/-- `interface ServiceMetrics` from the types file. -/
structure ServiceMetrics where
  totalRequests : Nat
  successCount : Nat
  failCount : Nat
  totalLatencyMs : Nat
  lastError : Option String
  lastErrorTime : Option Nat
deriving DecidableEq

/-- `type ProviderType` from the types file. -/
inductive ProviderType
  | groq
  | gemini
  | openrouter
  | cerebras
deriving DecidableEq

/-- One tracked upstream (`EnhancedTrackedService`): the adapter is abstracted
to its observable identity (display name, provider kind), next to metrics,
breaker, and the enabled flag. -/
structure ServiceState where
  name : List Char
  provider : ProviderType
  enabled : Bool
  metrics : ServiceMetrics
  circuitBreaker : CircuitBreakerState
deriving DecidableEq

/-- A throwaway service value used only as the default of `List.getD`. -/
def dummyService : ServiceState :=
  { name := [], provider := .groq, enabled := false,
    metrics := { totalRequests := 0, successCount := 0, failCount := 0,
                 totalLatencyMs := 0, lastError := none, lastErrorTime := none },
    circuitBreaker := { state := .CLOSED, failures := 0,
                        lastFailureTime := none, halfOpenAttempts := 0 } }

/-- The priority bonus computed inside `calculateHealthScore`: the display
name is lowercased and checked for the substrings `cerebras`, `groq`,
`openrouter`, in that order (`String.prototype.includes`), defaulting to the
gemini bonus 0. -/
def priorityBonus (name : List Char) : ℚ :=
  if "cerebras".data <:+: name.map Char.toLower then 15/100
  else if "groq".data <:+: name.map Char.toLower then 10/100
  else if "openrouter".data <:+: name.map Char.toLower then 5/100
  else 0

/-- The table `priorityBonus` keyed on the provider kind, as section 4.5 of
the specification requires (cerebras 0.15, groq 0.10, openrouter 0.05,
gemini 0.00). -/
def kindPriorityBonus : ProviderType → ℚ
  | .cerebras => 15/100
  | .groq => 10/100
  | .openrouter => 5/100
  | .gemini => 0

/-- The recent-error penalty of `calculateHealthScore`.  The JS guard
`if (metrics.lastErrorTime)` treats an absent or zero timestamp as falsy;
`Date.now() - metrics.lastErrorTime` is signed, so the delta is taken in
`ℤ`. -/
def recentErrorPenalty (now : Nat) (lastErrorTime : Option Nat) : ℚ :=
  match lastErrorTime with
  | some t =>
    if t ≠ 0 ∧ (now : ℤ) - t < errorPenaltyDurationMs then
      (3/10) * (1 - ((now : ℚ) - t) / 30000)
    else 0
  | none => 0

/-- `Math.max(0, Math.min(1, x))`. -/
def clamp01 (x : ℚ) : ℚ := max 0 (min 1 x)

/-- `calculateHealthScore`: 0 when OPEN, 0.1 when HALF_OPEN, the base score
0.5 plus the priority bonus below `minRequestsForScoring`, otherwise the
clamped weighted sum of success rate, latency score, bonus, and recent-error
penalty. -/
def calculateHealthScore (now : Nat) (ts : ServiceState) : ℚ :=
  if ts.circuitBreaker.state = .OPEN then 0
  else if ts.circuitBreaker.state = .HALF_OPEN then 1/10
  else
    let bonus := priorityBonus ts.name
    if ts.metrics.totalRequests < minRequestsForScoring then 1/2 + bonus
    else
      let successRate : ℚ := (ts.metrics.successCount : ℚ) / ts.metrics.totalRequests
      let avgLatency : ℚ := (ts.metrics.totalLatencyMs : ℚ) / ts.metrics.totalRequests
      let latencyScore : ℚ := max 0 (1 - avgLatency / 5000)
      clamp01 (successRate * (1/2) + latencyScore * (3/10) + bonus
               - recentErrorPenalty now ts.metrics.lastErrorTime)

/-- Modelled from the spec (the claim's wording of the recent-error
penalty): `0.3 * (1 - delta/30000)` whenever a last error timestamp exists
and `delta = now - last_error_timestamp < 30000`, else 0. -/
def specRecentErrorPenalty (now : Nat) (lastErrorTime : Option Nat) : ℚ :=
  match lastErrorTime with
  | some t =>
    if (now : ℤ) - t < 30000 then (3/10) * (1 - ((now : ℚ) - t) / 30000) else 0
  | none => 0

/-- Modelled from the spec (section 4.4 of the specification, quoted by the
claim): the health score as the claim words it, with `clamp` applied in the
cold-start branch as well and the penalty guarded only by the existence of a
last error timestamp.  Used to compare the source scorer against the
specification formula. -/
def specHealthScore (now : Nat) (ts : ServiceState) (B : ℚ) : ℚ :=
  if ts.circuitBreaker.state = .OPEN then 0
  else if ts.circuitBreaker.state = .HALF_OPEN then 1/10
  else if ts.metrics.totalRequests < 3 then clamp01 (1/2 + B)
  else
    clamp01 ((1/2) * ((ts.metrics.successCount : ℚ) / ts.metrics.totalRequests)
             + (3/10) * max 0 (1 - ((ts.metrics.totalLatencyMs : ℚ) / ts.metrics.totalRequests) / 5000)
             + B - specRecentErrorPenalty now ts.metrics.lastErrorTime)

/-- Display-name prefix of each provider class (`displayName` passed to the
base service constructor; the gemini service builds its name directly). -/
def displayChars : ProviderType → List Char
  | .groq => "Groq".data
  | .gemini => "Gemini".data
  | .openrouter => "OpenRouter".data
  | .cerebras => "Cerebras".data

/-- The display name a service instance is constructed with:
`` `${displayName} (Key #${instanceId})` ``. -/
def serviceDisplayName (p : ProviderType) (instanceId : List Char) : List Char :=
  displayChars p ++ " (Key #".data ++ instanceId ++ ")".data

/-- `calculateBackoffDelay`: `min(100 * 2^(attempt-1), 2000)`; every call
site passes `attempt ≥ 1`. -/
def calculateBackoffDelay (attempt : Nat) : Nat :=
  min (100 * 2 ^ (attempt - 1)) 2000

end Nexus

namespace Nexus

/-- Per-request lifecycle view: the process-wide in-flight counter together
with the per-request `hasDecrementedInFlight` latch. -/
structure Lifecycle where
  inFlight : Nat
  hasDecremented : Bool
  decCount : Nat
deriving DecidableEq

/-- `decrementInFlight`: decrement the in-flight counter unless this request
already did (`hasDecrementedInFlight` guard).  `decCount` is a ghost counter
of executed decrements. -/
def decrementInFlight (st : Lifecycle) : Lifecycle :=
  if st.hasDecremented then st
  else { inFlight := st.inFlight - 1, hasDecremented := true,
         decCount := st.decCount + 1 }

/-- The decrement call sites reachable once the SSE stream object exists: the
`finally` block of the stream `start` and the stream `cancel` callback.  Both
call the same guarded `decrementInFlight`. -/
inductive TermEvent
  | startFinally
  | cancel
deriving DecidableEq

/-- How one accepted chat request ends: the message validation rejects it
(status 400); the body parse or handler throws (the outer catch, status
500); the non-streaming branch taken on `body.stream === false` returns
directly with a completion (200) or after exhausting the failover loop
(502); or the SSE stream is created and some nonempty sequence of terminal
callbacks runs. -/
inductive ChatOutcome
  | invalidMessages
  | parseFailure
  | nonStreaming (ok : Bool)
  | streamOpened (events : List TermEvent)

/-- The `POST /v1/chat/completions` handler body from the `inFlightRequests++`
line on: the validation branch decrements inline and sets the latch; the
outer catch decrements under the latch guard; the non-streaming branch
returns its 200 or 502 response without touching the counter or the latch
(neither return passes through `decrementInFlight`); the stream path runs
each terminal callback through `decrementInFlight`.  Returns the response
status next to the final lifecycle state. -/
def chatCompletionPath (outcome : ChatOutcome) (inFlight0 : Nat) :
    Nat × Lifecycle :=
  let st : Lifecycle :=
    { inFlight := inFlight0 + 1, hasDecremented := false, decCount := 0 }
  match outcome with
  | .invalidMessages =>
    (400, { st with inFlight := st.inFlight - 1, hasDecremented := true,
                    decCount := st.decCount + 1 })
  | .parseFailure => (500, decrementInFlight st)
  | .nonStreaming ok => (if ok then 200 else 502, st)
  | .streamOpened events =>
    (200, events.foldl (fun acc _ => decrementInFlight acc) st)

/-- The shutdown gate at the top of `fetch`: while `isShuttingDown`, every
request is answered 503 with `Retry-After: 30` before the chat handler (and
its in-flight increment) is reached. -/
def fetchChatCompletions (shuttingDown : Bool) (outcome : ChatOutcome)
    (inFlight0 : Nat) : (Nat × Option String) × Nat :=
  if shuttingDown then ((503, some "30"), inFlight0)
  else
    let (code, st) := chatCompletionPath outcome inFlight0
    ((code, none), st.inFlight)

end Nexus

namespace Nexus

/-- JSON values as the validator sees them (floating point numbers only ever
matter through truthiness here, so `ℤ` suffices). -/
inductive JVal
  | null
  | bool (b : Bool)
  | num (n : Int)
  | str (s : String)
  | arr (elems : List JVal)
  | obj (fields : List (String × JVal))

/-- Association lookup among the own fields of a JSON object. -/
def lookupField : List (String × JVal) → String → Option JVal
  | [], _ => none
  | (k', v) :: rest, k => if k' = k then some v else lookupField rest k

/-- Field lookup on a JSON object; anything else has no own properties that
the validator reads. -/
def getField : JVal → String → Option JVal
  | .obj fields, k => lookupField fields k
  | _, _ => none

/-- JS truthiness of a JSON value. -/
def truthy : JVal → Bool
  | .null => false
  | .bool b => b
  | .num n => n ≠ 0
  | .str s => s ≠ ""
  | .arr _ => true
  | .obj _ => true

/-- `typeof v === 'object'` for a (non-null would pass too, but the validator
always conjoins truthiness) JSON value: objects and arrays. -/
def typeofObject : JVal → Bool
  | .arr _ => true
  | .obj _ => true
  | _ => false

/-- Whether field `k` of `p` is exactly the string `v` (the validator's
strict `===` comparisons against string literals). -/
def fieldIsStr (p : JVal) (k v : String) : Bool :=
  match getField p k with
  | some (.str s) => s = v
  | _ => false

/-- Whether field `k` of `p` is a string (`typeof p.k === 'string'`). -/
def fieldIsString (p : JVal) (k : String) : Bool :=
  match getField p k with
  | some (.str _) => true
  | _ => false

/-- One content part check inside `isValidMessage`: an object whose `type` is
`text` with a string `text`, or whose `type` is `image_url` with a truthy
object-typed `image_url`. -/
def isValidPart (p : JVal) : Bool :=
  if !(truthy p && typeofObject p) then false
  else if fieldIsStr p "type" "text" && fieldIsString p "text" then true
  else if fieldIsStr p "type" "image_url"
          && (match getField p "image_url" with
              | some v => truthy v && typeofObject v
              | none => false) then true
  else false

/-- `isValidMessage`: a truthy object whose `role` is one of `system`,
`user`, `assistant` and whose `content` is a string or an array in which
every element passes `isValidPart`. -/
def isValidMessage (m : JVal) : Bool :=
  if !(truthy m && typeofObject m) then false
  else if !(fieldIsStr m "role" "system" || fieldIsStr m "role" "user"
            || fieldIsStr m "role" "assistant") then false
  else
    match getField m "content" with
    | some (.str _) => true
    | some (.arr parts) => parts.all isValidPart
    | _ => false

/-- The chat endpoint validation guard
`!Array.isArray(messages) || !messages.every(isValidMessage)`: `true` means
the request is rejected with status 400; `false` means it proceeds to the
failover loop.  `none` models an absent `messages` field. -/
def chatValidationRejects (messages : Option JVal) : Bool :=
  match messages with
  | some (.arr l) => !(l.all isValidMessage)
  | _ => true

/-- Modelled from the spec (the claim's wording of a valid message): an
object whose role is in the fixed set and whose content is either a string
or an array of text or image-url parts. -/
def specValidMessage (m : JVal) : Bool :=
  (truthy m && typeofObject m)
  && (fieldIsStr m "role" "system" || fieldIsStr m "role" "user"
      || fieldIsStr m "role" "assistant")
  && (match getField m "content" with
      | some (.str _) => true
      | some (.arr parts) => parts.all isValidPart
      | _ => false)

end Nexus

namespace Nexus

/-- The three routing modes of the selector (the `X-Routing-Mode` header
values `smart`, `fastest`, `round-robin`; any other header value falls back
to smart before the loop starts). -/
inductive RoutingMode
  | smart
  | fastest
  | roundRobin
deriving DecidableEq

/-- One step of the candidate filter of `getNextService`:
`!excludeIndices.has(index) && ts.enabled && isServiceAvailable(ts)`.
The conjunction short-circuits, so the availability check (and its possible
OPEN to HALF_OPEN mutation) runs only for non-excluded enabled services. -/
def availCheck (now : Nat) (exclude : List Nat) (i : Nat) (ts : ServiceState) :
    Bool × ServiceState :=
  if i ∈ exclude then (false, ts)
  else if !ts.enabled then (false, ts)
  else
    let r := isServiceAvailable now ts.circuitBreaker
    (r.1, { ts with circuitBreaker := r.2 })

/-- The indexed filter pass
`trackedServices.map((ts, index) => ({ts, index})).filter(...)`, threading
the breaker mutations: returns the `(index, service)` candidate list next to
the updated tracked sequence. -/
def availAux (now : Nat) (exclude : List Nat) (i : Nat) :
    List ServiceState → List (Nat × ServiceState) × List ServiceState
  | [] => ([], [])
  | ts :: rest =>
    let c := availCheck now exclude i ts
    let r := availAux now exclude (i + 1) rest
    (if c.1 then (i, c.2) :: r.1 else r.1, c.2 :: r.2)

/-- Stable insertion, ascending index, modelling
`available.sort((a, b) => a.index - b.index)`. -/
def insertByIdx (x : Nat × ServiceState) :
    List (Nat × ServiceState) → List (Nat × ServiceState)
  | [] => [x]
  | y :: ys => if x.1 ≤ y.1 then x :: y :: ys else y :: insertByIdx x ys

/-- Insertion sort by ascending index. -/
def sortByIdx (l : List (Nat × ServiceState)) : List (Nat × ServiceState) :=
  l.foldr insertByIdx []

/-- Stable insertion, descending score, modelling
`scored.sort((a, b) => b.score - a.score)` (JS sort is stable, so an earlier
candidate stays ahead of an equal-scored later one). -/
def insertByScore (x : Nat × ℚ) : List (Nat × ℚ) → List (Nat × ℚ)
  | [] => [x]
  | y :: ys => if y.2 ≤ x.2 then x :: y :: ys else y :: insertByScore x ys

/-- Insertion sort by descending score. -/
def sortByScore (l : List (Nat × ℚ)) : List (Nat × ℚ) :=
  l.foldr insertByScore []

/-- The weighted walk of smart mode: subtract `max(0.1, score)` from the
random draw and stop at the first non-positive remainder. -/
def pickWeighted (r : ℚ) : List (Nat × ℚ) → Option Nat
  | [] => none
  | s :: rest =>
    if r - max (1/10) s.2 ≤ 0 then some s.1
    else pickWeighted (r - max (1/10) s.2) rest

/-- `getNextService`: filter to available candidates (possibly mutating
breakers), return `none` on an empty candidate list and the single candidate
early (before any mode dispatch, so the round-robin pointer is not advanced
then), otherwise dispatch on the routing mode.  `rand` stands for the
`Math.random()` draw.  The selected service is reported by its tracked index
(`trackedServices.indexOf(tracked)` in the source).  Returns the chosen
index, the new round-robin pointer and the updated sequence. -/
def getNextService (now : Nat) (rand : ℚ) (mode : RoutingMode) (ptr : Nat)
    (exclude : List Nat) (services : List ServiceState) :
    Option Nat × Nat × List ServiceState :=
  let p := availAux now exclude 0 services
  match p.1 with
  | [] => (none, ptr, p.2)
  | [a] => (some a.1, ptr, p.2)
  | _ =>
    match mode with
    | .roundRobin =>
      let sorted := sortByIdx p.1
      (some (sorted.getD (ptr % sorted.length) (0, dummyService)).1,
       (ptr + 1) % services.length, p.2)
    | .fastest =>
      let scored := sortByScore (p.1.map fun a => (a.1, calculateHealthScore now a.2))
      (some (scored.getD 0 (0, 0)).1, ptr, p.2)
    | .smart =>
      let scored := sortByScore (p.1.map fun a => (a.1, calculateHealthScore now a.2))
      let total := (scored.map fun s => max (1/10 : ℚ) s.2).sum
      (some ((pickWeighted (rand * total) scored).getD (scored.getD 0 (0, 0)).1),
       ptr, p.2)

/-- The re-probe of the failover loop,
`trackedServices.some((ts, idx) => !triedIndices.has(idx) && isServiceAvailable(ts))`:
`Array.prototype.some` evaluates left to right and short-circuits, so
breakers are mutated only up to the first hit; note that the `enabled` flag
is not consulted here. -/
def reprobeAux (now : Nat) (tried : List Nat) (i : Nat) :
    List ServiceState → Bool × List ServiceState
  | [] => (false, [])
  | ts :: rest =>
    if i ∈ tried then
      let r := reprobeAux now tried (i + 1) rest
      (r.1, ts :: r.2)
    else
      let c := isServiceAvailable now ts.circuitBreaker
      let ts' := { ts with circuitBreaker := c.2 }
      if c.1 then (true, ts' :: rest)
      else
        let r := reprobeAux now tried (i + 1) rest
        (r.1, ts' :: r.2)

/-- Point update of the tracked sequence (mutation of one service object
in place). -/
def updAt (i : Nat) (f : ServiceState → ServiceState) :
    List ServiceState → List ServiceState
  | [] => []
  | ts :: rest =>
    match i with
    | 0 => f ts :: rest
    | n + 1 => ts :: updAt n f rest

/-- The attempt prologue: half-open attempt tracking
(`halfOpenAttempts++` when the breaker is HALF_OPEN, before the call) and
`metrics.totalRequests++`. -/
def attemptProlog (ts : ServiceState) : ServiceState :=
  let ts1 :=
    if ts.circuitBreaker.state = .HALF_OPEN then
      { ts with circuitBreaker :=
          { ts.circuitBreaker with
            halfOpenAttempts := ts.circuitBreaker.halfOpenAttempts + 1 } }
    else ts
  { ts1 with metrics :=
      { ts1.metrics with totalRequests := ts1.metrics.totalRequests + 1 } }

/-- Success bookkeeping: `successCount++`, latency accumulation,
`recordSuccess` on the breaker. -/
def applySuccess (nowStart nowEnd : Nat) (ts : ServiceState) : ServiceState :=
  { ts with
    metrics := { ts.metrics with
      successCount := ts.metrics.successCount + 1,
      totalLatencyMs := ts.metrics.totalLatencyMs + (nowEnd - nowStart) },
    circuitBreaker := recordSuccess ts.circuitBreaker }

/-- Failure bookkeeping of the catch block: `failCount++`, `lastError`,
`lastErrorTime`, latency accumulation, `recordFailure` on the breaker. -/
def applyFailure (msg : String) (nowStart nowEnd : Nat) (ts : ServiceState) :
    ServiceState :=
  { ts with
    metrics := { ts.metrics with
      failCount := ts.metrics.failCount + 1,
      lastError := some msg,
      lastErrorTime := some nowEnd,
      totalLatencyMs := ts.metrics.totalLatencyMs + (nowEnd - nowStart) },
    circuitBreaker := recordFailure nowEnd ts.circuitBreaker }

/-- The `for await (const chunk of gen)` body: an abort check before each
pulled chunk is processed, then (for truthy chunks) the commit flag is set
and the chunk emitted.  Returns the commit flag after the loop and whether
the loop was left through the abort check (in which case the generator's
ending is never consumed). -/
def runChunks (started : Bool) : List (Bool × String) → Bool × Bool
  | [] => (started, false)
  | c :: rest =>
    if c.1 then (started, true)
    else runChunks (if c.2 ≠ "" then true else started) rest

/-- The adversarial environment of one iteration of the failover loop:
abort flag at the loop guard; wall-clock reads; the smart-mode random draw;
the abort flag read after the first result; the first result of the adapter
stream (`Except.error` models the first-token timeout or a throw before the
first chunk, `Except.ok none` models `firstResult.done`, `Except.ok (some v)`
a first chunk `v`); the remaining pulled chunks, each paired with the abort
flag read just before it is processed; and how the generator ends when it is
drained to the end. -/
structure IterEnv where
  abortAtGuard : Bool
  nowSelect : Nat
  rand : ℚ
  nowReprobe : Nat
  nowStart : Nat
  nowEnd : Nat
  abortAtFirst : Bool
  first : Except String (Option String)
  chunks : List (Bool × String)
  ending : Except String Unit

/-- Per-request loop state, with ghost instrumentation: `dispatched` is the
sequence of tracked indices that attempts were dispatched to; `selectorCalls`,
`sleeps` and `succRecordings` count selector invocations, backoff sleeps and
executed success recordings; `done` marks that the `while` loop has been
left. -/
structure ReqState where
  services : List ServiceState
  rrPtr : Nat
  tried : List Nat
  attemptNumber : Nat
  started : Bool
  dispatched : List Nat
  selectorCalls : Nat
  sleeps : Nat
  succRecordings : Nat
  done : Bool
deriving DecidableEq

/-- The success exit of an attempt: success bookkeeping on the committed
upstream followed by `break` (the `succRecordings` ghost counter records
that a success recording executed). -/
def successExit (env : IterEnv) (idx : Nat) (s : ReqState) : ReqState :=
  { s with services := updAt idx (applySuccess env.nowStart env.nowEnd) s.services,
           succRecordings := s.succRecordings + 1,
           done := true }

/-- The catch block of an attempt: failure bookkeeping on the attempted
upstream, then `break` if the stream had committed and `continue`
otherwise. -/
def failCatch (msg : String) (env : IterEnv) (idx : Nat) (s : ReqState) : ReqState :=
  if s.started then
    { s with services := updAt idx (applyFailure msg env.nowStart env.nowEnd) s.services,
             done := true }
  else
    { s with services := updAt idx (applyFailure msg env.nowStart env.nowEnd) s.services }

/-- The phase from the `for await` chunk loop on: drain chunks (with an
abort check each), then either commit a success, continue the failover
loop, or run the catch block, exactly as after the first result was
processed. -/
def afterChunks (env : IterEnv) (idx : Nat) (s : ReqState) : ReqState :=
  if (runChunks s.started env.chunks).2 then
    if (runChunks s.started env.chunks).1 then
      successExit env idx { s with started := (runChunks s.started env.chunks).1 }
    else { s with started := (runChunks s.started env.chunks).1 }
  else
    match env.ending with
    | .ok _ =>
      if (runChunks s.started env.chunks).1 then
        successExit env idx { s with started := (runChunks s.started env.chunks).1 }
      else { s with started := (runChunks s.started env.chunks).1 }
    | .error msg =>
      failCatch msg env idx { s with started := (runChunks s.started env.chunks).1 }

/-- One dispatched attempt (the `try`/`catch` body of the loop), after the
state `s` already contains the tried-set and counter updates of this
iteration.  Mirrors: the prologue mutations (half-open tracking and
`totalRequests++`); the first-token race; the abort check; the first-chunk
and empty-done branches; the chunk loop; the post-loop success commit; the
catch block.  `done := true` models `break`. -/
def attemptBody (env : IterEnv) (idx : Nat) (s : ReqState) : ReqState :=
  match env.first with
  | .error msg => failCatch msg env idx s
  | .ok fres =>
    if env.abortAtFirst then { s with done := true }
    else
      match fres with
      | none => successExit env idx { s with started := true }
      | some v =>
        if v ≠ "" then afterChunks env idx { s with started := true }
        else afterChunks env idx s

def runAttempt (env : IterEnv) (idx : Nat) (s : ReqState) : ReqState :=
  attemptBody env idx { s with services := updAt idx attemptProlog s.services }

/-- Commit a selector result into the request state: the (possibly
mutated) tracked sequence, the advanced round-robin pointer, and the
selector-call ghost counter. -/
def afterSelect (g : Option Nat × Nat × List ServiceState) (s : ReqState) :
    ReqState :=
  { s with services := g.2.2, rrPtr := g.2.1,
           selectorCalls := s.selectorCalls + 1 }

/-- The `tracked === null` branch: with at least one attempt behind, back
off, re-probe the whole tracked sequence against `triedIndices` (ignoring
`enabled`), and `continue` on a hit or `break` otherwise; with no attempt
yet, `break` immediately. -/
def nullBranch (env : IterEnv) (s : ReqState) : ReqState :=
  if 0 < s.attemptNumber then
    if (reprobeAux env.nowReprobe s.tried 0 s.services).1 then
      { s with sleeps := s.sleeps + 1,
               services := (reprobeAux env.nowReprobe s.tried 0 s.services).2 }
    else
      { s with sleeps := s.sleeps + 1,
               services := (reprobeAux env.nowReprobe s.tried 0 s.services).2,
               done := true }
  else { s with done := true }

/-- The dispatch prologue: attempt counter, tried-set insertion, and the
backoff sleep taken before every retry attempt. -/
def dispatchProlog (idx : Nat) (s : ReqState) : ReqState :=
  { s with attemptNumber := s.attemptNumber + 1,
           tried := if idx ∈ s.tried then s.tried else idx :: s.tried,
           dispatched := s.dispatched ++ [idx],
           sleeps := s.sleeps + (if 1 < s.attemptNumber + 1 then 1 else 0) }

/-- One iteration of
`while (triedIndices.size < trackedServices.length && !aborted)`: the guard,
the selector call, the `tracked === null` branch (backoff sleep, re-probe,
`break`/`continue`), or the dispatch path (attempt counter, tried-set
insertion, backoff sleep for retries, then the attempt body). -/
def loopStep (mode : RoutingMode) (env : IterEnv) (s : ReqState) : ReqState :=
  if s.done then s
  else if !(s.tried.length < s.services.length && !env.abortAtGuard) then
    { s with done := true }
  else
    match (getNextService env.nowSelect env.rand mode s.rrPtr s.tried s.services).1 with
    | none =>
      nullBranch env
        (afterSelect (getNextService env.nowSelect env.rand mode s.rrPtr s.tried s.services) s)
    | some idx =>
      runAttempt env idx
        (dispatchProlog idx
          (afterSelect (getNextService env.nowSelect env.rand mode s.rrPtr s.tried s.services) s))

/-- The loop run as iterated steps under an environment schedule; the state
is frozen once `done` is set, so the `k`-indexed family describes the whole
（possibly infinite） run of one request. -/
def loopRun (mode : RoutingMode) (envs : Nat → IterEnv) (s0 : ReqState) :
    Nat → ReqState
  | 0 => s0
  | k + 1 => loopStep mode (envs k) (loopRun mode envs s0 k)

/-- The per-request initial state: empty tried set, zero attempts, not yet
committed, over a given tracked sequence and round-robin pointer. -/
def initReqState (services : List ServiceState) (ptr : Nat) : ReqState :=
  { services := services, rrPtr := ptr, tried := [], attemptNumber := 0,
    started := false, dispatched := [], selectorCalls := 0, sleeps := 0,
    succRecordings := 0, done := false }

/-- Success count of the service at tracked index `i`. -/
def succAt (s : ReqState) (i : Nat) : Nat :=
  (s.services.getD i dummyService).metrics.successCount

/-- Enabled flag of the service at tracked index `i`. -/
def enabledAt (s : ReqState) (i : Nat) : Bool :=
  (s.services.getD i dummyService).enabled

end Nexus

namespace Nexus

/-- Breaker states from which an availability check returns true without
waiting on the clock: CLOSED, or HALF_OPEN with spare probe budget.  A
re-probe hit leaves its breaker in such a state, so it stays selectable at
the next selector call whatever the clock then reads. -/
def availNoWait (cb : CircuitBreakerState) : Prop :=
  cb.state = .CLOSED ∨
  (cb.state = .HALF_OPEN ∧ cb.halfOpenAttempts < halfOpenMaxAttempts)

/-- Every tracked upstream of the request is enabled. -/
def allEnabled (s : ReqState) : Prop :=
  ∀ i, i < s.services.length → enabledAt s i = true

/-- Some not-yet-tried upstream is selectable without waiting. -/
def hasFreshAvailable (s : ReqState) : Prop :=
  ∃ k, k < s.services.length ∧ k ∉ s.tried ∧
    availNoWait ((s.services.getD k dummyService).circuitBreaker)

/-- The loop run restarted from state `s` at schedule position `k`. -/
def runFrom (mode : RoutingMode) (envs : Nat → IterEnv) (k : Nat) (s : ReqState) :
    Nat → ReqState
  | 0 => s
  | j + 1 => loopStep mode (envs (k + j)) (runFrom mode envs k s j)

/-- Fields of the request state that one attempt body never changes,
together with preservation of the tracked-sequence length and of each
upstream's enabled flag. -/
def FrameEq (s t : ReqState) : Prop :=
  t.tried = s.tried ∧ t.dispatched = s.dispatched ∧
  t.attemptNumber = s.attemptNumber ∧ t.selectorCalls = s.selectorCalls ∧
  t.sleeps = s.sleeps ∧ t.rrPtr = s.rrPtr ∧
  t.services.length = s.services.length ∧
  (∀ j, enabledAt t j = enabledAt s j)

/-- Success accounting across part of a run: either no success recording
ran and every success counter is unchanged, or exactly one recording ran
for tracked index `idx`, the request had committed, and the loop broke. -/
def SuccOutcome (idx : Nat) (s t : ReqState) : Prop :=
  (t.succRecordings = s.succRecordings ∧ ∀ j, succAt t j = succAt s j) ∨
  (t.succRecordings = s.succRecordings + 1 ∧ t.done = true ∧
   t.started = true ∧
   ∀ j, succAt t j = succAt s j + (if j = idx then 1 else 0))

/-- Invariants of the request state the failover loop maintains for the
per-request accounting: the dispatch log is duplicate-free and contained
in the tried set, the tried set holds tracked indices, a not-yet-broken
loop has not committed, and at most one upstream has had a success
recorded — the committed one. -/
def C1Master (s0 s : ReqState) : Prop :=
  s.dispatched.Nodup ∧
  (∀ i, i ∈ s.dispatched → i ∈ s.tried) ∧
  s.tried.Nodup ∧
  (∀ i, i ∈ s.tried → i < s.services.length) ∧
  s.services.length = s0.services.length ∧
  (s.done = false → s.started = false) ∧
  (∃ od : Option Nat,
     (∀ j, succAt s j = succAt s0 j + (if od = some j then 1 else 0)) ∧
     s.succRecordings = s0.succRecordings + (if od = none then 0 else 1) ∧
     (od ≠ none → s.started = true ∧ s.done = true))

/-- Indexed view of the tracked sequence starting at index `i` (the
`(index, ts)` pairs the selector's filter produces when nothing is
dropped). -/
def enumF (i : Nat) : List ServiceState → List (Nat × ServiceState)
  | [] => []
  | ts :: rest => (i, ts) :: enumF (i + 1) rest

/-- Consecutive selector calls in round-robin mode over a fixed exclusion
set, threading the pointer and the (possibly mutated) tracked sequence;
returns the list of selections in order. -/
def rrRun (now : Nat) (rand : ℚ) (exclude : List Nat) :
    Nat → Nat × List ServiceState → List (Option Nat)
  | 0, _ => []
  | k + 1, st =>
    let g := getNextService now rand .roundRobin st.1 exclude st.2
    g.1 :: rrRun now rand exclude k (g.2.1, g.2.2)

/-- Counter half of the sleeps-versus-selector-calls bookkeeping: a state
with no attempt yet has never slept, and otherwise the sleep count stays
strictly below the selector-call count. -/
def SleepInv (s : ReqState) : Prop :=
  (s.attemptNumber = 0 → s.sleeps = 0) ∧
  s.sleeps + (if s.attemptNumber = 0 then 0 else 1) ≤ s.selectorCalls

/-- Metrics with all counters zero (`createInitialMetrics`). -/
def zeroMetrics : ServiceMetrics :=
  { totalRequests := 0, successCount := 0, failCount := 0, totalLatencyMs := 0,
    lastError := none, lastErrorTime := none }

/-- A closed breaker with no history (`createInitialCircuitBreaker`). -/
def freshBreaker : CircuitBreakerState :=
  { state := .CLOSED, failures := 0, lastFailureTime := none,
    halfOpenAttempts := 0 }

/-- An open breaker whose last failure was recorded at time `t`. -/
def trippedBreaker (t : Nat) : CircuitBreakerState :=
  { state := .OPEN, failures := 3, lastFailureTime := some t,
    halfOpenAttempts := 0 }

/-- Sample upstream constructor for concrete runs. -/
def mkSvc (p : ProviderType) (nm : List Char) (en : Bool)
    (cb : CircuitBreakerState) : ServiceState :=
  { name := nm, provider := p, enabled := en, metrics := zeroMetrics,
    circuitBreaker := cb }

/-- An iteration environment in which nothing aborts and the attempt fails
before its first chunk (first-token timeout). -/
def failEnv (nowSel nowRep nowSt nowEnd : Nat) : IterEnv :=
  { abortAtGuard := false, nowSelect := nowSel, rand := 0, nowReprobe := nowRep,
    nowStart := nowSt, nowEnd := nowEnd, abortAtFirst := false,
    first := .error "boom", chunks := [], ending := .ok () }

/-- Environment schedule of the selector-call-bound counterexample: the one
closed upstream fails, then the two open breakers expire one after the
other, each during a backoff sleep, forcing two re-probe rounds. -/
def cexEnvsC7 : Nat → IterEnv
  | 0 => failEnv 100000 0 100000 100500
  | 1 => failEnv 100700 101001 0 0
  | 2 => failEnv 101001 0 101001 101400
  | 3 => failEnv 101600 103001 0 0
  | _ => failEnv 103001 0 103001 103400

/-- Three enabled upstreams: one closed, two open with reset deadlines that
expire while the request backs off. -/
def cexServicesC7 : List ServiceState :=
  [mkSvc .groq "Groq (Key #1)".data true freshBreaker,
   mkSvc .gemini "Gemini (Key #1)".data true (trippedBreaker 41000),
   mkSvc .gemini "Gemini (Key #2)".data true (trippedBreaker 43000)]

/-- One enabled failing upstream next to a disabled upstream whose breaker
is closed: the re-probe (which ignores `enabled`) keeps reporting it. -/
def llServices : List ServiceState :=
  [mkSvc .groq "Groq (Key #1)".data true freshBreaker,
   mkSvc .gemini "Gemini (Key #1)".data false freshBreaker]

/-- A constant no-abort, instant-failure schedule. -/
def llEnvs : Nat → IterEnv := fun _ => failEnv 0 0 0 0

/-- The tracked sequence of the livelock run after its first failed
attempt: the enabled upstream carries the failure bookkeeping, the
disabled one is untouched. -/
def llServices1 : List ServiceState :=
  [{ name := "Groq (Key #1)".data, provider := .groq, enabled := true,
     metrics := { totalRequests := 1, successCount := 0, failCount := 1,
                  totalLatencyMs := 0, lastError := some "boom",
                  lastErrorTime := some 0 },
     circuitBreaker := { state := .CLOSED, failures := 1,
                         lastFailureTime := some 0, halfOpenAttempts := 0 } },
   mkSvc .gemini "Gemini (Key #1)".data false freshBreaker]

/-- The livelock run's state after `c + 1` iterations: the tried set and
attempt counter are stuck while the ghost counters keep growing. -/
def llState (c : Nat) : ReqState :=
  { services := llServices1, rrPtr := 0, tried := [0], attemptNumber := 1,
    started := false, dispatched := [0], selectorCalls := c + 1, sleeps := c,
    succRecordings := 0, done := false }

/-- Environment of the cancelled committed stream: a first chunk arrives,
then the abort flag is observed before the next chunk. -/
def c8Env : IterEnv :=
  { abortAtGuard := false, nowSelect := 0, rand := 0, nowReprobe := 0,
    nowStart := 0, nowEnd := 50, abortAtFirst := false,
    first := .ok (some "Hel"), chunks := [(true, "lo")], ending := .ok () }

/-- The committed upstream of the cancellation counterexample. -/
def c8Services : List ServiceState :=
  [mkSvc .groq "Groq (Key #1)".data true freshBreaker]

/-- Three enabled closed upstreams for the round-robin counterexample. -/
def rrServices : List ServiceState :=
  [mkSvc .groq "Groq (Key #1)".data true freshBreaker,
   mkSvc .groq "Groq (Key #2)".data true freshBreaker,
   mkSvc .gemini "Gemini (Key #1)".data true freshBreaker]

/-- A sample enabled closed upstream for witness instantiations. -/
def wSvc : ServiceState := mkSvc .groq "Groq (Key #1)".data true freshBreaker

/-- A constant witness schedule. -/
def wEnvs : Nat → IterEnv := fun _ => failEnv 0 0 0 0

end Nexus

namespace Nexus

theorem clamp01_nonneg (x : ℚ) : 0 ≤ clamp01 x := le_max_left 0 _

theorem clamp01_le_one (x : ℚ) : clamp01 x ≤ 1 :=
  max_le (by norm_num) (min_le_left 1 x)

theorem clamp01_of_bounds {x : ℚ} (h0 : 0 ≤ x) (h1 : x ≤ 1) : clamp01 x = x := by
  unfold clamp01
  rw [min_eq_right h1, max_eq_right h0]

theorem priorityBonus_cases (name : List Char) :
    priorityBonus name = 15/100 ∨ priorityBonus name = 10/100 ∨
    priorityBonus name = 5/100 ∨ priorityBonus name = 0 := by
  unfold priorityBonus
  split_ifs <;> simp

theorem priorityBonus_nonneg (name : List Char) : 0 ≤ priorityBonus name := by
  rcases priorityBonus_cases name with h | h | h | h <;> rw [h] <;> norm_num

theorem priorityBonus_le (name : List Char) : priorityBonus name ≤ 15/100 := by
  rcases priorityBonus_cases name with h | h | h | h <;> rw [h] <;> norm_num

/-- C2: `recordSuccess` in CLOSED sets `failures` to `max(0, failures - 1)`
and keeps the breaker CLOSED; in HALF_OPEN it closes the circuit with
`failures = 0` and `half_open_attempts = 0`; `recordFailure` in CLOSED
increments `failures` and opens the circuit exactly when the incremented
count reaches `FAILURE_THRESHOLD = 3`; in HALF_OPEN it reopens the circuit
with `half_open_attempts = 0` and a refreshed `last_failure_timestamp`. -/
theorem circuitBreaker_transition_spec (cb : CircuitBreakerState) (now : Nat) :
    (cb.state = .CLOSED →
      recordSuccess cb = { cb with failures := cb.failures - 1 }) ∧
    (cb.state = .HALF_OPEN →
      recordSuccess cb
        = { cb with state := .CLOSED, failures := 0, halfOpenAttempts := 0 }) ∧
    (cb.state = .CLOSED →
      (recordFailure now cb).failures = cb.failures + 1 ∧
      (recordFailure now cb).lastFailureTime = some now ∧
      ((recordFailure now cb).state = .OPEN ↔ failureThreshold ≤ cb.failures + 1) ∧
      (cb.failures + 1 < failureThreshold → (recordFailure now cb).state = .CLOSED)) ∧
    (cb.state = .HALF_OPEN →
      recordFailure now cb
        = { cb with state := .OPEN, halfOpenAttempts := 0,
                    lastFailureTime := some now }) := by
  obtain ⟨st, f, lft, hoa⟩ := cb
  refine ⟨?_, ?_, ?_, ?_⟩ <;> intro h
  · cases st
    case CLOSED => rfl
    case OPEN => exact nomatch h
    case HALF_OPEN => exact nomatch h
  · cases st
    case CLOSED => exact nomatch h
    case OPEN => exact nomatch h
    case HALF_OPEN => rfl
  · cases st
    case OPEN => exact nomatch h
    case HALF_OPEN => exact nomatch h
    case CLOSED =>
      refine ⟨?_, ?_, ?_, ?_⟩
      · by_cases h3 : failureThreshold ≤ f + 1 <;> simp [recordFailure, h3]
      · by_cases h3 : failureThreshold ≤ f + 1 <;> simp [recordFailure, h3]
      · by_cases h3 : failureThreshold ≤ f + 1 <;> simp [recordFailure, h3]
      · intro hlt
        replace hlt : f + 1 < failureThreshold := hlt
        have h3 : ¬ failureThreshold ≤ f + 1 := by omega
        simp [recordFailure, h3]
  · cases st
    case CLOSED => exact nomatch h
    case OPEN => exact nomatch h
    case HALF_OPEN => rfl

/-- Witness for C2: a half-open breaker is closed by one success. -/
theorem circuitBreaker_transition_spec_witness :
    recordSuccess { state := .HALF_OPEN, failures := 2, lastFailureTime := some 5,
                    halfOpenAttempts := 1 }
      = { state := .CLOSED, failures := 0, lastFailureTime := some 5,
          halfOpenAttempts := 0 } :=
  (circuitBreaker_transition_spec
    { state := .HALF_OPEN, failures := 2, lastFailureTime := some 5,
      halfOpenAttempts := 1 } 0).2.1 rfl

/-- C3: the availability check returns true in CLOSED with no change; in
OPEN (with a recorded, nonzero last-failure time) it returns true exactly
when the reset timeout of 60 000 ms has elapsed, transitioning the breaker
to HALF_OPEN with `half_open_attempts = 0` in that case and changing nothing
otherwise; in HALF_OPEN it returns true exactly when
`half_open_attempts < HALF_OPEN_MAX_ATTEMPTS = 1`, with no state change. -/
theorem isServiceAvailable_spec (cb : CircuitBreakerState) (now : Nat) :
    (cb.state = .CLOSED → isServiceAvailable now cb = (true, cb)) ∧
    (∀ t, cb.state = .OPEN → cb.lastFailureTime = some t → 0 < t →
      (((isServiceAvailable now cb).1 = true) ↔ resetTimeoutMs ≤ now - t) ∧
      (resetTimeoutMs ≤ now - t →
        isServiceAvailable now cb
          = (true, { cb with state := .HALF_OPEN, halfOpenAttempts := 0 })) ∧
      (now - t < resetTimeoutMs → isServiceAvailable now cb = (false, cb))) ∧
    (cb.state = .HALF_OPEN →
      (((isServiceAvailable now cb).1 = true) ↔
        cb.halfOpenAttempts < halfOpenMaxAttempts) ∧
      (isServiceAvailable now cb).2 = cb) := by
  obtain ⟨st, f, lft, hoa⟩ := cb
  refine ⟨?_, ?_, ?_⟩
  · intro h
    cases st
    case CLOSED => rfl
    case OPEN => exact nomatch h
    case HALF_OPEN => exact nomatch h
  · intro t h hl ht
    cases st
    case CLOSED => exact nomatch h
    case HALF_OPEN => exact nomatch h
    case OPEN =>
      cases hl
      by_cases h60 : resetTimeoutMs ≤ now - t
      · have hcond : t ≠ 0 ∧ resetTimeoutMs ≤ now - t := ⟨by omega, h60⟩
        refine ⟨?_, fun _ => ?_, fun hlt => by omega⟩
        · simp [isServiceAvailable, hcond, h60]
        · simp [isServiceAvailable, hcond]
      · have hcond : ¬(t ≠ 0 ∧ resetTimeoutMs ≤ now - t) := fun hc => h60 hc.2
        refine ⟨?_, fun hc => absurd hc h60, fun _ => ?_⟩
        · simp [isServiceAvailable, hcond, h60]
        · simp [isServiceAvailable, hcond]
  · intro h
    cases st
    case CLOSED => exact nomatch h
    case OPEN => exact nomatch h
    case HALF_OPEN =>
      refine ⟨?_, rfl⟩
      simp [isServiceAvailable]

/-- Witness for C3: an open breaker whose reset window elapsed becomes
half-open and reports available. -/
theorem isServiceAvailable_spec_witness :
    isServiceAvailable 70000 (trippedBreaker 1000)
      = (true, { state := .HALF_OPEN, failures := 3, lastFailureTime := some 1000,
                 halfOpenAttempts := 0 }) :=
  ((isServiceAvailable_spec (trippedBreaker 1000) 70000).2.1 1000 rfl rfl
    (by norm_num)).2.1 (by norm_num [resetTimeoutMs])

theorem recentErrorPenalty_eq_spec (now : Nat) (o : Option Nat)
    (h : ∀ t, o = some t → 0 < t) :
    recentErrorPenalty now o = specRecentErrorPenalty now o := by
  cases o with
  | none => rfl
  | some t =>
    have ht : t ≠ 0 := Nat.pos_iff_ne_zero.mp (h t rfl)
    by_cases h30 : (now : ℤ) - t < errorPenaltyDurationMs
    · have h30' : (now : ℤ) - t < 30000 := h30
      simp [recentErrorPenalty, specRecentErrorPenalty, ht, h30, h30']
    · have h30' : ¬ (now : ℤ) - t < 30000 := h30
      simp [recentErrorPenalty, specRecentErrorPenalty, ht, h30, h30']

/-- C4: the health score equals the specification formula (0 when OPEN, 0.1
when HALF_OPEN, `clamp(0.5 + B, 0, 1)` below 3 requests, and the clamped
weighted sum `0.5*success_rate + 0.3*latency_score + B - recent_error_penalty`
otherwise, with the penalty `0.3*(1 - delta/30000)` active exactly when a
(positive) last error timestamp lies less than 30 000 ms in the past), and
the result always lies in `[0, 1]`. -/
theorem calculateHealthScore_spec (now : Nat) (ts : ServiceState)
    (hlet : ∀ t, ts.metrics.lastErrorTime = some t → 0 < t) :
    calculateHealthScore now ts = specHealthScore now ts (priorityBonus ts.name) ∧
    0 ≤ calculateHealthScore now ts ∧ calculateHealthScore now ts ≤ 1 := by
  have hb0 := priorityBonus_nonneg ts.name
  have hb1 := priorityBonus_le ts.name
  by_cases hO : ts.circuitBreaker.state = .OPEN
  · simp [calculateHealthScore, specHealthScore, hO]
  by_cases hH : ts.circuitBreaker.state = .HALF_OPEN
  · refine ⟨?_, ?_, ?_⟩ <;> simp [calculateHealthScore, specHealthScore, hO, hH] <;> norm_num
  by_cases hm : ts.metrics.totalRequests < minRequestsForScoring
  · have hm3 : ts.metrics.totalRequests < 3 := hm
    have hcl : clamp01 (1/2 + priorityBonus ts.name) = 1/2 + priorityBonus ts.name :=
      clamp01_of_bounds (by linarith) (by linarith)
    refine ⟨?_, ?_, ?_⟩ <;>
      simp [calculateHealthScore, specHealthScore, hO, hH, hm, hm3, hcl] <;>
      linarith
  · have hm3 : ¬ ts.metrics.totalRequests < 3 := hm
    have hpen := recentErrorPenalty_eq_spec now ts.metrics.lastErrorTime hlet
    refine ⟨?_, ?_, ?_⟩
    · simp only [calculateHealthScore, specHealthScore, hO, hH, hm, hm3, if_neg, if_false,
        hpen]
      congr 1
      ring
    · simp only [calculateHealthScore]
      rw [if_neg hO, if_neg hH, if_neg hm]
      exact clamp01_nonneg _
    · simp only [calculateHealthScore]
      rw [if_neg hO, if_neg hH, if_neg hm]
      exact clamp01_le_one _

/-- Witness for C4 at a fresh upstream. -/
theorem calculateHealthScore_spec_witness :
    calculateHealthScore 0 wSvc = specHealthScore 0 wSvc (priorityBonus wSvc.name) ∧
    0 ≤ calculateHealthScore 0 wSvc ∧ calculateHealthScore 0 wSvc ≤ 1 :=
  calculateHealthScore_spec 0 wSvc (fun t ht => Option.noConfusion ht)

theorem not_infix_of_mem_not_mem {c : Char} {l1 l2 : List Char}
    (h1 : c ∈ l1) (h2 : c ∉ l2) : ¬ l1 <:+: l2 :=
  fun h => h2 (h.subset h1)

theorem not_mem_append4 {c : Char} {a b d e : List Char}
    (ha : c ∉ a) (hb : c ∉ b) (hdg : c ∉ d) (he : c ∉ e) :
    c ∉ a ++ b ++ d ++ e := by
  simp only [List.mem_append]
  tauto

theorem toLower_eq_self_of_digit {c : Char} (h : c ∈ "0123456789".data) :
    c.toLower = c := by
  fin_cases h <;> rfl

theorem map_toLower_digits {id : List Char}
    (hd : ∀ c ∈ id, c ∈ "0123456789".data) :
    id.map Char.toLower = id := by
  induction id with
  | nil => rfl
  | cons a l ih =>
    simp only [List.map_cons]
    rw [toLower_eq_self_of_digit (hd a (by simp)),
        ih (fun c hc => hd c (by simp [hc]))]

theorem not_mem_digits {c : Char} (id : List Char)
    (hd : ∀ x ∈ id, x ∈ "0123456789".data) (hc : c ∉ "0123456789".data) :
    c ∉ id := fun h => hc (hd c h)

/-- Counterexample to C5: two upstreams with the same `provider_kind`
(gemini), the same metrics and the same breaker receive different health
scores, because the scorer infers the bonus by substring matching on the
display name (here one display name happens to contain `groq`). -/
theorem priorityBonus_name_dependent_cex :
    (mkSvc .gemini "x".data true freshBreaker).provider
      = (mkSvc .gemini "groq".data true freshBreaker).provider ∧
    (mkSvc .gemini "x".data true freshBreaker).metrics
      = (mkSvc .gemini "groq".data true freshBreaker).metrics ∧
    (mkSvc .gemini "x".data true freshBreaker).circuitBreaker
      = (mkSvc .gemini "groq".data true freshBreaker).circuitBreaker ∧
    calculateHealthScore 0 (mkSvc .gemini "x".data true freshBreaker)
      ≠ calculateHealthScore 0 (mkSvc .gemini "groq".data true freshBreaker) := by
  refine ⟨rfl, rfl, rfl, ?_⟩
  have e1 : calculateHealthScore 0 (mkSvc .gemini "x".data true freshBreaker)
      = 1/2 + priorityBonus "x".data := rfl
  have e2 : calculateHealthScore 0 (mkSvc .gemini "groq".data true freshBreaker)
      = 1/2 + priorityBonus "groq".data := rfl
  have hx : priorityBonus "x".data = 0 := by
    unfold priorityBonus
    rw [if_neg (by decide), if_neg (by decide), if_neg (by decide)]
  have hg : priorityBonus "groq".data = 10/100 := by
    unfold priorityBonus
    rw [if_neg (by decide), if_pos (by decide)]
  rw [e1, e2, hx, hg]
  norm_num

/-- C5 amended: the bonus is inferred by substring matching on the lowercased
display name with the table cerebras 0.15 / groq 0.10 / openrouter 0.05 /
otherwise 0.00; for the display names this repository constructs
(`<DisplayName> (Key #<digits>)`), that substring inference agrees with
keying the table on `provider_kind`. -/
theorem priorityBonus_agrees_on_kind (p : ProviderType) (id : List Char)
    (hd : ∀ c ∈ id, c ∈ "0123456789".data) :
    priorityBonus (serviceDisplayName p id) = kindPriorityBonus p := by
  have hmap : (serviceDisplayName p id).map Char.toLower
      = (displayChars p).map Char.toLower ++ " (key #".data ++ id ++ ")".data := by
    unfold serviceDisplayName
    rw [List.map_append, List.map_append, List.map_append, map_toLower_digits hd,
        (by decide : " (Key #".data.map Char.toLower = " (key #".data),
        (by decide : ")".data.map Char.toLower = ")".data)]
  unfold priorityBonus
  rw [hmap]
  cases p
  case cerebras =>
    rw [(by decide : (displayChars ProviderType.cerebras).map Char.toLower
          = "cerebras".data)]
    have hc : "cerebras".data <:+:
        "cerebras".data ++ " (key #".data ++ id ++ ")".data := by
      rw [List.append_assoc, List.append_assoc]
      exact (List.prefix_append _ _).isInfix
    rw [if_pos hc]
    rfl
  case groq =>
    rw [(by decide : (displayChars ProviderType.groq).map Char.toLower
          = "groq".data)]
    have hnc : ¬ ("cerebras".data <:+:
        "groq".data ++ " (key #".data ++ id ++ ")".data) :=
      not_infix_of_mem_not_mem (c := 'b') (by decide)
        (not_mem_append4 (by decide) (by decide)
          (not_mem_digits id hd (by decide)) (by decide))
    have hg : "groq".data <:+:
        "groq".data ++ " (key #".data ++ id ++ ")".data := by
      rw [List.append_assoc, List.append_assoc]
      exact (List.prefix_append _ _).isInfix
    rw [if_neg hnc, if_pos hg]
    rfl
  case openrouter =>
    rw [(by decide : (displayChars ProviderType.openrouter).map Char.toLower
          = "openrouter".data)]
    have hnc : ¬ ("cerebras".data <:+:
        "openrouter".data ++ " (key #".data ++ id ++ ")".data) :=
      not_infix_of_mem_not_mem (c := 'b') (by decide)
        (not_mem_append4 (by decide) (by decide)
          (not_mem_digits id hd (by decide)) (by decide))
    have hng : ¬ ("groq".data <:+:
        "openrouter".data ++ " (key #".data ++ id ++ ")".data) :=
      not_infix_of_mem_not_mem (c := 'g') (by decide)
        (not_mem_append4 (by decide) (by decide)
          (not_mem_digits id hd (by decide)) (by decide))
    have ho : "openrouter".data <:+:
        "openrouter".data ++ " (key #".data ++ id ++ ")".data := by
      rw [List.append_assoc, List.append_assoc]
      exact (List.prefix_append _ _).isInfix
    rw [if_neg hnc, if_neg hng, if_pos ho]
    rfl
  case gemini =>
    rw [(by decide : (displayChars ProviderType.gemini).map Char.toLower
          = "gemini".data)]
    have hnc : ¬ ("cerebras".data <:+:
        "gemini".data ++ " (key #".data ++ id ++ ")".data) :=
      not_infix_of_mem_not_mem (c := 'b') (by decide)
        (not_mem_append4 (by decide) (by decide)
          (not_mem_digits id hd (by decide)) (by decide))
    have hng : ¬ ("groq".data <:+:
        "gemini".data ++ " (key #".data ++ id ++ ")".data) :=
      not_infix_of_mem_not_mem (c := 'q') (by decide)
        (not_mem_append4 (by decide) (by decide)
          (not_mem_digits id hd (by decide)) (by decide))
    have hno : ¬ ("openrouter".data <:+:
        "gemini".data ++ " (key #".data ++ id ++ ")".data) :=
      not_infix_of_mem_not_mem (c := 'u') (by decide)
        (not_mem_append4 (by decide) (by decide)
          (not_mem_digits id hd (by decide)) (by decide))
    rw [if_neg hnc, if_neg hng, if_neg hno]
    rfl

/-- Witness for the amended C5 at a groq instance with id 12. -/
theorem priorityBonus_agrees_on_kind_witness :
    priorityBonus (serviceDisplayName .groq "12".data) = kindPriorityBonus .groq :=
  priorityBonus_agrees_on_kind .groq "12".data (by decide)

theorem decrements_stable (evs : List TermEvent) (st : Lifecycle)
    (h : st.hasDecremented = true) :
    evs.foldl (fun acc _ => decrementInFlight acc) st = st := by
  induction evs with
  | nil => rfl
  | cons e l ih =>
    simp only [List.foldl_cons]
    rw [show decrementInFlight st = st from by simp [decrementInFlight, h]]
    exact ih

/-- C9 (code bug): while shutting down, every incoming request is rejected
with status 503 and `Retry-After: 30` before the in-flight counter is
touched, and on the validation-failure, handler-exception and streaming
completion paths the incremented counter is decremented exactly once — but
the claim's "never zero times" fails on the non-streaming branch taken on
`body.stream === false`: that branch returns its 200 (success) or 502
(exhaustion) response with zero decrements, leaving `in_flight`
permanently one higher than before the request. -/
theorem inflight_decrement_audit (shuttingDown : Bool) (outcome : ChatOutcome)
    (inFlight0 : Nat) :
    (shuttingDown = true →
      fetchChatCompletions true outcome inFlight0
        = ((503, some "30"), inFlight0)) ∧
    ((outcome = .invalidMessages ∨ outcome = .parseFailure ∨
      (∃ e evs, outcome = .streamOpened (e :: evs))) →
      (chatCompletionPath outcome inFlight0).2.inFlight = inFlight0 ∧
      (chatCompletionPath outcome inFlight0).2.decCount = 1) ∧
    (∀ ok, outcome = .nonStreaming ok →
      (chatCompletionPath outcome inFlight0).1 = (if ok then 200 else 502) ∧
      (chatCompletionPath outcome inFlight0).2.decCount = 0 ∧
      (chatCompletionPath outcome inFlight0).2.inFlight = inFlight0 + 1) := by
  refine ⟨fun _ => rfl, ?_, ?_⟩
  · rintro (rfl | rfl | ⟨e, evs, rfl⟩)
    · exact ⟨rfl, rfl⟩
    · exact ⟨rfl, rfl⟩
    · simp only [chatCompletionPath, List.foldl_cons]
      rw [show decrementInFlight
            { inFlight := inFlight0 + 1, hasDecremented := false, decCount := 0 }
          = { inFlight := inFlight0, hasDecremented := true, decCount := 1 } from rfl]
      rw [decrements_stable evs _ rfl]
      exact ⟨rfl, rfl⟩
  · rintro ok rfl
    exact ⟨rfl, rfl, rfl⟩

/-- Witness for C9: a non-streaming request that got a completion (status
200) has executed zero decrements and left the in-flight counter one
high. -/
theorem inflight_decrement_audit_witness :
    (chatCompletionPath (.nonStreaming true) 7).1 = (if true then 200 else 502) ∧
    (chatCompletionPath (.nonStreaming true) 7).2.decCount = 0 ∧
    (chatCompletionPath (.nonStreaming true) 7).2.inFlight = 8 :=
  (inflight_decrement_audit false (.nonStreaming true) 7).2.2 true rfl

theorem isValidMessage_eq_spec (m : JVal) : isValidMessage m = specValidMessage m := by
  unfold isValidMessage specValidMessage
  cases h1 : truthy m && typeofObject m <;>
    cases h2 : (fieldIsStr m "role" "system" || fieldIsStr m "role" "user"
                || fieldIsStr m "role" "assistant") <;>
      simp [h1, h2]

theorem all_valid_eq_all_spec (l : List JVal) :
    l.all isValidMessage = l.all specValidMessage := by
  induction l with
  | nil => rfl
  | cons a t ih => simp [List.all_cons, isValidMessage_eq_spec, ih]

/-- C10: the chat endpoint's validation rejects with status 400 exactly when
the body's `messages` is not an array or some element is not a valid message
(role among system / user / assistant, content a string or an array of
text / image-url parts); in particular the empty array passes vacuously, so
a request with `messages: []` is not rejected and proceeds to the failover
loop. -/
theorem chat_validation_spec (v : Option JVal) :
    ((chatValidationRejects v = false) ↔
      ∃ l, v = some (.arr l) ∧ l.all specValidMessage = true) ∧
    chatValidationRejects (some (.arr [])) = false := by
  refine ⟨⟨?_, ?_⟩, rfl⟩
  · intro h
    cases v with
    | none => simp [chatValidationRejects] at h
    | some jv =>
      cases jv with
      | arr l =>
        refine ⟨l, rfl, ?_⟩
        rw [← all_valid_eq_all_spec]
        simpa [chatValidationRejects] using h
      | null => simp [chatValidationRejects] at h
      | bool b => simp [chatValidationRejects] at h
      | num n => simp [chatValidationRejects] at h
      | str s => simp [chatValidationRejects] at h
      | obj fs => simp [chatValidationRejects] at h
  · rintro ⟨l, rfl, hl⟩
    rw [← all_valid_eq_all_spec] at hl
    simp [chatValidationRejects, hl]

/-- Witness for C10: the empty message list is not rejected. -/
theorem chat_validation_spec_witness :
    chatValidationRejects (some (.arr [])) = false :=
  (chat_validation_spec (some (.arr []))).2

theorem updAt_length (f : ServiceState → ServiceState) :
    ∀ (l : List ServiceState) (i : Nat), (updAt i f l).length = l.length := by
  intro l
  induction l with
  | nil => intro i; cases i <;> rfl
  | cons a t ih =>
    intro i
    cases i with
    | zero => rfl
    | succ n => simpa [updAt] using ih n

theorem updAt_getD_ne (f : ServiceState → ServiceState) :
    ∀ (l : List ServiceState) (i j : Nat), j ≠ i →
      (updAt i f l).getD j dummyService = l.getD j dummyService := by
  intro l
  induction l with
  | nil => intro i j h; simp [updAt]
  | cons a t ih =>
    intro i j h
    cases i with
    | zero =>
      cases j with
      | zero => exact absurd rfl h
      | succ m => simp [updAt]
    | succ n =>
      cases j with
      | zero => simp [updAt]
      | succ m =>
        simp only [updAt, List.getD_cons_succ]
        exact ih n m (fun hc => h (by rw [hc]))

theorem updAt_getD_self (f : ServiceState → ServiceState) :
    ∀ (l : List ServiceState) (i : Nat), i < l.length →
      (updAt i f l).getD i dummyService = f (l.getD i dummyService) := by
  intro l
  induction l with
  | nil => intro i h; simp at h
  | cons a t ih =>
    intro i h
    cases i with
    | zero => simp [updAt]
    | succ n =>
      simp only [updAt, List.getD_cons_succ]
      exact ih n (by simpa using h)

theorem attemptProlog_enabled (ts : ServiceState) :
    (attemptProlog ts).enabled = ts.enabled := by
  unfold attemptProlog
  split <;> rfl

theorem attemptProlog_succ (ts : ServiceState) :
    (attemptProlog ts).metrics.successCount = ts.metrics.successCount := by
  unfold attemptProlog
  split <;> rfl

theorem applySuccess_enabled (a b : Nat) (ts : ServiceState) :
    (applySuccess a b ts).enabled = ts.enabled := rfl

theorem applySuccess_succ (a b : Nat) (ts : ServiceState) :
    (applySuccess a b ts).metrics.successCount = ts.metrics.successCount + 1 := rfl

theorem applyFailure_enabled (m : String) (a b : Nat) (ts : ServiceState) :
    (applyFailure m a b ts).enabled = ts.enabled := rfl

theorem applyFailure_succ (m : String) (a b : Nat) (ts : ServiceState) :
    (applyFailure m a b ts).metrics.successCount = ts.metrics.successCount := rfl

theorem isServiceAvailable_of_noWait (now : Nat) {cb : CircuitBreakerState}
    (h : availNoWait cb) : isServiceAvailable now cb = (true, cb) := by
  obtain ⟨st, f, lft, hoa⟩ := cb
  rcases h with h | ⟨h, hlt⟩
  · cases h
    rfl
  · cases h
    simp [isServiceAvailable, hlt]

theorem availNoWait_of_true (now : Nat) (cb : CircuitBreakerState)
    (h : (isServiceAvailable now cb).1 = true) :
    availNoWait (isServiceAvailable now cb).2 := by
  obtain ⟨st, f, lft, hoa⟩ := cb
  cases st
  case CLOSED => exact Or.inl rfl
  case OPEN =>
    cases lft with
    | none => exact absurd h (by simp [isServiceAvailable])
    | some t =>
      by_cases hc : t ≠ 0 ∧ resetTimeoutMs ≤ now - t
      · right
        refine ⟨?_, ?_⟩ <;> simp [isServiceAvailable, hc, halfOpenMaxAttempts]
      · exact absurd h (by simp [isServiceAvailable, hc])
  case HALF_OPEN =>
    right
    refine ⟨rfl, ?_⟩
    simpa [isServiceAvailable] using h

theorem availCheck_keeps (now : Nat) (ex : List Nat) (i : Nat) (ts : ServiceState) :
    ((availCheck now ex i ts).2).enabled = ts.enabled ∧
    ((availCheck now ex i ts).2).metrics = ts.metrics := by
  unfold availCheck
  split_ifs <;> exact ⟨rfl, rfl⟩

theorem availCheck_true (now : Nat) (ex : List Nat) (i : Nat) (a : ServiceState)
    (h : (availCheck now ex i a).1 = true) :
    i ∉ ex ∧ ((availCheck now ex i a).2).enabled = true := by
  unfold availCheck at h ⊢
  by_cases h1 : i ∈ ex
  · rw [if_pos h1] at h
    cases h
  · rw [if_neg h1] at h ⊢
    cases he : a.enabled with
    | false =>
      rw [if_pos (by simp [he])] at h
      cases h
    | true =>
      rw [if_neg (by simp [he])] at h ⊢
      exact ⟨h1, rfl⟩

theorem availAux_snd_length (now : Nat) (ex : List Nat) :
    ∀ (l : List ServiceState) (i : Nat), (availAux now ex i l).2.length = l.length := by
  intro l
  induction l with
  | nil => intro i; rfl
  | cons a t ih =>
    intro i
    simpa [availAux] using ih (i + 1)

theorem availAux_snd_getD (now : Nat) (ex : List Nat) :
    ∀ (l : List ServiceState) (i k : Nat),
      (((availAux now ex i l).2.getD k dummyService).enabled
         = (l.getD k dummyService).enabled) ∧
      (((availAux now ex i l).2.getD k dummyService).metrics
         = (l.getD k dummyService).metrics) := by
  intro l
  induction l with
  | nil => intro i k; exact ⟨rfl, rfl⟩
  | cons a t ih =>
    intro i k
    cases k with
    | zero =>
      simpa only [availAux, List.getD_cons_zero] using availCheck_keeps now ex i a
    | succ m =>
      simpa only [availAux, List.getD_cons_succ] using ih (i + 1) m

theorem availAux_mem (now : Nat) (ex : List Nat) :
    ∀ (l : List ServiceState) (i j : Nat) (ts : ServiceState),
      (j, ts) ∈ (availAux now ex i l).1 →
      j ∉ ex ∧ ts.enabled = true ∧ i ≤ j ∧ j < i + l.length := by
  intro l
  induction l with
  | nil => intro i j ts h; simp [availAux] at h
  | cons a t ih =>
    intro i j ts h
    simp only [availAux] at h
    cases hcb : (availCheck now ex i a).1 with
    | false =>
      rw [if_neg (by simp [hcb])] at h
      obtain ⟨he, hen, hle, hlt⟩ := ih (i + 1) j ts h
      exact ⟨he, hen, by omega, by simp; omega⟩
    | true =>
      rw [if_pos hcb] at h
      rcases List.mem_cons.mp h with heq | hmem
      · obtain ⟨hj, hts⟩ := Prod.mk.injEq .. ▸ heq
        obtain ⟨hex, hen⟩ := availCheck_true now ex i a hcb
        subst hj
        subst hts
        exact ⟨hex, hen, le_refl _, by simp⟩
      · obtain ⟨he, hen, hle, hlt⟩ := ih (i + 1) j ts hmem
        exact ⟨he, hen, by omega, by simp; omega⟩

theorem availAux_ne_nil (now : Nat) (ex : List Nat) :
    ∀ (l : List ServiceState) (i k : Nat), k < l.length → (i + k) ∉ ex →
      (l.getD k dummyService).enabled = true →
      availNoWait (l.getD k dummyService).circuitBreaker →
      (availAux now ex i l).1 ≠ [] := by
  intro l
  induction l with
  | nil => intro i k hk; simp at hk
  | cons a t ih =>
    intro i k hk hex hen hav
    cases k with
    | zero =>
      simp only [List.getD_cons_zero] at hen hav
      have hc : (availCheck now ex i a).1 = true := by
        unfold availCheck
        rw [if_neg (by simpa using hex)]
        rw [if_neg (by simp [hen])]
        rw [isServiceAvailable_of_noWait now hav]
      simp only [availAux, if_pos hc]
      exact List.cons_ne_nil _ _
    | succ m =>
      simp only [List.getD_cons_succ] at hen hav
      have hne := ih (i + 1) m (by simpa using hk) (by simpa [Nat.add_assoc, Nat.add_comm 1 m] using hex) hen hav
      simp only [availAux]
      cases hcb : (availCheck now ex i a).1 with
      | false => simpa [hcb] using hne
      | true => simp

theorem reprobeAux_snd_length (now : Nat) (tried : List Nat) :
    ∀ (l : List ServiceState) (i : Nat),
      (reprobeAux now tried i l).2.length = l.length := by
  intro l
  induction l with
  | nil => intro i; rfl
  | cons a t ih =>
    intro i
    simp only [reprobeAux]
    by_cases hm : i ∈ tried
    · simpa [hm] using ih (i + 1)
    · rw [if_neg hm]
      cases hc : (isServiceAvailable now a.circuitBreaker).1 with
      | true => simp
      | false => simpa using ih (i + 1)

theorem reprobeAux_snd_getD (now : Nat) (tried : List Nat) :
    ∀ (l : List ServiceState) (i k : Nat),
      (((reprobeAux now tried i l).2.getD k dummyService).enabled
         = (l.getD k dummyService).enabled) ∧
      (((reprobeAux now tried i l).2.getD k dummyService).metrics
         = (l.getD k dummyService).metrics) := by
  intro l
  induction l with
  | nil => intro i k; exact ⟨rfl, rfl⟩
  | cons a t ih =>
    intro i k
    simp only [reprobeAux]
    by_cases hm : i ∈ tried
    · rw [if_pos hm]
      cases k with
      | zero => exact ⟨rfl, rfl⟩
      | succ m => simpa only [List.getD_cons_succ] using ih (i + 1) m
    · rw [if_neg hm]
      cases hc : (isServiceAvailable now a.circuitBreaker).1 with
      | true =>
        rw [if_pos rfl]
        cases k with
        | zero => exact ⟨rfl, rfl⟩
        | succ m => exact ⟨rfl, rfl⟩
      | false =>
        rw [if_neg (by simp)]
        cases k with
        | zero => exact ⟨rfl, rfl⟩
        | succ m => simpa only [List.getD_cons_succ] using ih (i + 1) m

theorem reprobeAux_true (now : Nat) (tried : List Nat) :
    ∀ (l : List ServiceState) (i : Nat), (reprobeAux now tried i l).1 = true →
      ∃ k, k < l.length ∧ (i + k) ∉ tried ∧
        availNoWait (((reprobeAux now tried i l).2).getD k dummyService).circuitBreaker := by
  intro l
  induction l with
  | nil => intro i h; cases h
  | cons a t ih =>
    intro i h
    simp only [reprobeAux] at h ⊢
    by_cases hm : i ∈ tried
    · rw [if_pos hm] at h ⊢
      obtain ⟨k, hk, hex, hav⟩ := ih (i + 1) h
      refine ⟨k + 1, by simpa using hk, by simpa [Nat.add_assoc, Nat.add_comm 1 k] using hex, ?_⟩
      simpa only [List.getD_cons_succ] using hav
    · rw [if_neg hm] at h ⊢
      cases hc : (isServiceAvailable now a.circuitBreaker).1 with
      | true =>
        rw [if_pos rfl]
        refine ⟨0, by simp, by simpa using hm, ?_⟩
        simp only [List.getD_cons_zero]
        exact availNoWait_of_true now a.circuitBreaker hc
      | false =>
        rw [if_neg (by simp [hc])] at h
        rw [if_neg (by simp)]
        obtain ⟨k, hk, hex, hav⟩ := ih (i + 1) h
        refine ⟨k + 1, by simpa using hk, by simpa [Nat.add_assoc, Nat.add_comm 1 k] using hex, ?_⟩
        simpa only [List.getD_cons_succ] using hav

theorem mem_insertByIdx (x y : Nat × ServiceState) :
    ∀ l, y ∈ insertByIdx x l → y = x ∨ y ∈ l := by
  intro l
  induction l with
  | nil =>
    intro h
    unfold insertByIdx at h
    exact Or.inl (by simpa using h)
  | cons a t ih =>
    intro h
    unfold insertByIdx at h
    split_ifs at h
    · rcases List.mem_cons.mp h with h | h
      · exact Or.inl h
      · exact Or.inr h
    · rcases List.mem_cons.mp h with h | h
      · exact Or.inr (by simp [h])
      · rcases ih h with h | h
        · exact Or.inl h
        · exact Or.inr (by simp [h])

theorem mem_sortByIdx (y : Nat × ServiceState) :
    ∀ l, y ∈ sortByIdx l → y ∈ l := by
  intro l
  induction l with
  | nil => intro h; simpa [sortByIdx] using h
  | cons a t ih =>
    intro h
    rcases mem_insertByIdx a y (sortByIdx t) h with h | h
    · simp [h]
    · simp [ih h]

theorem length_insertByIdx (x : Nat × ServiceState) :
    ∀ l, (insertByIdx x l).length = l.length + 1 := by
  intro l
  induction l with
  | nil => rfl
  | cons a t ih =>
    unfold insertByIdx
    split_ifs <;> simp [ih]

theorem length_sortByIdx : ∀ l, (sortByIdx l).length = l.length := by
  intro l
  induction l with
  | nil => rfl
  | cons a t ih =>
    show (insertByIdx a (sortByIdx t)).length = t.length + 1
    rw [length_insertByIdx, ih]

theorem mem_insertByScore (x y : Nat × ℚ) :
    ∀ l, y ∈ insertByScore x l → y = x ∨ y ∈ l := by
  intro l
  induction l with
  | nil =>
    intro h
    unfold insertByScore at h
    exact Or.inl (by simpa using h)
  | cons a t ih =>
    intro h
    unfold insertByScore at h
    split_ifs at h
    · rcases List.mem_cons.mp h with h | h
      · exact Or.inl h
      · exact Or.inr h
    · rcases List.mem_cons.mp h with h | h
      · exact Or.inr (by simp [h])
      · rcases ih h with h | h
        · exact Or.inl h
        · exact Or.inr (by simp [h])

theorem mem_sortByScore (y : Nat × ℚ) :
    ∀ l, y ∈ sortByScore l → y ∈ l := by
  intro l
  induction l with
  | nil => intro h; simpa [sortByScore] using h
  | cons a t ih =>
    intro h
    rcases mem_insertByScore a y (sortByScore t) h with h | h
    · simp [h]
    · simp [ih h]

theorem length_insertByScore (x : Nat × ℚ) :
    ∀ l, (insertByScore x l).length = l.length + 1 := by
  intro l
  induction l with
  | nil => rfl
  | cons a t ih =>
    unfold insertByScore
    split_ifs <;> simp [ih]

theorem length_sortByScore : ∀ l : List (Nat × ℚ), (sortByScore l).length = l.length := by
  intro l
  induction l with
  | nil => rfl
  | cons a t ih =>
    show (insertByScore a (sortByScore t)).length = t.length + 1
    rw [length_insertByScore, ih]

theorem pickWeighted_mem (j : Nat) :
    ∀ (l : List (Nat × ℚ)) (r : ℚ), pickWeighted r l = some j → ∃ q, (j, q) ∈ l := by
  intro l
  induction l with
  | nil => intro r h; cases h
  | cons a t ih =>
    intro r h
    unfold pickWeighted at h
    split_ifs at h
    · obtain rfl := Option.some.injEq .. ▸ h
      exact ⟨a.2, by simp⟩
    · obtain ⟨q, hq⟩ := ih _ h
      exact ⟨q, by simp [hq]⟩

theorem pickWeighted_getD_mem (l : List (Nat × ℚ)) (r : ℚ) (fb : Nat)
    (hfb : ∃ q, (fb, q) ∈ l) : ∃ q, ((pickWeighted r l).getD fb, q) ∈ l := by
  cases hw : pickWeighted r l with
  | none => simpa using hfb
  | some j => simpa using pickWeighted_mem j l r hw

theorem scored_fst_mem (now : Nat) (l : List (Nat × ServiceState)) (j : Nat) (q : ℚ)
    (h : (j, q) ∈ sortByScore (l.map fun a => (a.1, calculateHealthScore now a.2))) :
    ∃ ts, (j, ts) ∈ l := by
  have h2 := mem_sortByScore _ _ h
  obtain ⟨a, ha, heq⟩ := List.mem_map.mp h2
  have h1 : a.1 = j := congrArg Prod.fst heq
  subst h1
  exact ⟨a.2, by simpa using ha⟩

theorem getNextService_snd_services (now : Nat) (rand : ℚ) (mode : RoutingMode)
    (ptr : Nat) (ex : List Nat) (services : List ServiceState) :
    (getNextService now rand mode ptr ex services).2.2
      = (availAux now ex 0 services).2 := by
  simp only [getNextService]
  cases hA : (availAux now ex 0 services).1 with
  | nil => rfl
  | cons a rest =>
    cases rest with
    | nil => rfl
    | cons b rest2 => cases mode <;> rfl

theorem getNextService_none (now : Nat) (rand : ℚ) (mode : RoutingMode)
    (ptr : Nat) (ex : List Nat) (services : List ServiceState)
    (h : (getNextService now rand mode ptr ex services).1 = none) :
    (availAux now ex 0 services).1 = [] := by
  simp only [getNextService] at h
  cases hA : (availAux now ex 0 services).1 with
  | nil => rfl
  | cons a rest =>
    rw [hA] at h
    cases rest with
    | nil => cases h
    | cons b rest2 => cases mode <;> cases h

theorem getNextService_some (now : Nat) (rand : ℚ) (mode : RoutingMode)
    (ptr : Nat) (ex : List Nat) (services : List ServiceState) (j : Nat)
    (h : (getNextService now rand mode ptr ex services).1 = some j) :
    ∃ ts, (j, ts) ∈ (availAux now ex 0 services).1 := by
  simp only [getNextService] at h
  cases hA : (availAux now ex 0 services).1 with
  | nil =>
    rw [hA] at h
    cases h
  | cons a rest =>
    rw [hA] at h
    cases rest with
    | nil =>
      have ha : a.1 = j := by simpa using h
      subst ha
      exact ⟨a.2, by simp⟩
    | cons b rest2 =>
      cases mode with
      | roundRobin =>
        obtain rfl : _ = j := by simpa using h
        have hlen : 0 < (sortByIdx (a :: b :: rest2)).length := by
          rw [length_sortByIdx]
          simp
        have hmem : (sortByIdx (a :: b :: rest2)).getD
            (ptr % (sortByIdx (a :: b :: rest2)).length) (0, dummyService)
              ∈ sortByIdx (a :: b :: rest2) := by
          rw [List.getD_eq_getElem _ _ (Nat.mod_lt _ hlen)]
          exact List.getElem_mem _
        have hmem2 := mem_sortByIdx _ _ hmem
        exact ⟨_, by simpa using hmem2⟩
      | fastest =>
        obtain rfl : _ = j := by simpa using h
        have hlen : 0 < (sortByScore ((a :: b :: rest2).map
            fun x => (x.1, calculateHealthScore now x.2))).length := by
          rw [length_sortByScore]
          simp
        have hmem : (sortByScore ((a :: b :: rest2).map
            fun x => (x.1, calculateHealthScore now x.2))).getD 0 (0, 0)
              ∈ sortByScore ((a :: b :: rest2).map
                  fun x => (x.1, calculateHealthScore now x.2)) := by
          rw [List.getD_eq_getElem _ _ hlen]
          exact List.getElem_mem _
        obtain ⟨ts, hts⟩ := scored_fst_mem now (a :: b :: rest2) _ _
          (by simpa using hmem)
        exact ⟨ts, by simpa using hts⟩
      | smart =>
        obtain rfl : _ = j := by simpa using h
        have hlen : 0 < (sortByScore ((a :: b :: rest2).map
            fun x => (x.1, calculateHealthScore now x.2))).length := by
          rw [length_sortByScore]
          simp
        have hfbmem : (sortByScore ((a :: b :: rest2).map
            fun x => (x.1, calculateHealthScore now x.2))).getD 0 (0, 0)
              ∈ sortByScore ((a :: b :: rest2).map
                  fun x => (x.1, calculateHealthScore now x.2)) := by
          rw [List.getD_eq_getElem _ _ hlen]
          exact List.getElem_mem _
        obtain ⟨q, hq⟩ := pickWeighted_getD_mem
          (sortByScore ((a :: b :: rest2).map
            fun x => (x.1, calculateHealthScore now x.2)))
          (rand * ((sortByScore ((a :: b :: rest2).map
            fun x => (x.1, calculateHealthScore now x.2))).map
              fun s => max (1/10 : ℚ) s.2).sum)
          ((sortByScore ((a :: b :: rest2).map
            fun x => (x.1, calculateHealthScore now x.2))).getD 0 (0, 0)).1
          ⟨_, by simpa using hfbmem⟩
        obtain ⟨ts, hts⟩ := scored_fst_mem now (a :: b :: rest2) _ _ hq
        exact ⟨ts, by simpa using hts⟩

theorem getNextService_some_props (now : Nat) (rand : ℚ) (mode : RoutingMode)
    (ptr : Nat) (ex : List Nat) (services : List ServiceState) (j : Nat)
    (h : (getNextService now rand mode ptr ex services).1 = some j) :
    j ∉ ex ∧ j < services.length := by
  obtain ⟨ts, hmem⟩ := getNextService_some now rand mode ptr ex services j h
  obtain ⟨hex, hen, hle, hlt⟩ := availAux_mem now ex services 0 j ts hmem
  exact ⟨hex, by simpa using hlt⟩

theorem enumF_length : ∀ (l : List ServiceState) (i : Nat),
    (enumF i l).length = l.length := by
  intro l
  induction l with
  | nil => intro i; rfl
  | cons a t ih => intro i; simpa [enumF] using ih (i + 1)

theorem enumF_getD : ∀ (l : List ServiceState) (i k : Nat), k < l.length →
    (enumF i l).getD k (0, dummyService) = (i + k, l.getD k dummyService) := by
  intro l
  induction l with
  | nil => intro i k hk; simp at hk
  | cons a t ih =>
    intro i k hk
    cases k with
    | zero => simp [enumF]
    | succ m =>
      simp only [enumF, List.getD_cons_succ]
      rw [ih (i + 1) m (by simpa using hk)]
      congr 1
      omega

theorem enumF_fst_le : ∀ (l : List ServiceState) (i : Nat)
    (x : Nat × ServiceState), x ∈ enumF i l → i ≤ x.1 := by
  intro l
  induction l with
  | nil => intro i x h; simp [enumF] at h
  | cons a t ih =>
    intro i x h
    rcases List.mem_cons.mp h with rfl | h
    · exact le_refl _
    · exact Nat.le_of_succ_le (ih (i + 1) x h)

theorem enumF_pairwise : ∀ (l : List ServiceState) (i : Nat),
    (enumF i l).Pairwise (fun a b => a.1 ≤ b.1) := by
  intro l
  induction l with
  | nil => intro i; exact List.Pairwise.nil
  | cons a t ih =>
    intro i
    refine List.pairwise_cons.mpr ⟨?_, ih (i + 1)⟩
    intro y hy
    exact Nat.le_of_succ_le (enumF_fst_le t (i + 1) y hy)

theorem sortByIdx_eq_self :
    ∀ l, l.Pairwise (fun a b : Nat × ServiceState => a.1 ≤ b.1) → sortByIdx l = l := by
  intro l
  induction l with
  | nil => intro _; rfl
  | cons a t ih =>
    intro hp
    obtain ⟨ha, ht⟩ := List.pairwise_cons.mp hp
    show insertByIdx a (sortByIdx t) = a :: t
    rw [ih ht]
    cases t with
    | nil => rfl
    | cons b t2 =>
      unfold insertByIdx
      rw [if_pos (ha b (by simp))]

theorem availAux_full (now : Nat) :
    ∀ (l : List ServiceState) (i : Nat),
      (∀ ts ∈ l, ts.enabled = true ∧ ts.circuitBreaker.state = .CLOSED) →
      availAux now [] i l = (enumF i l, l) := by
  intro l
  induction l with
  | nil => intro i _; rfl
  | cons a t ih =>
    intro i hAll
    have ha := hAll a (by simp)
    have hc : availCheck now [] i a = (true, a) := by
      unfold availCheck
      rw [if_neg (by simp), if_neg (by simp [ha.1]),
          isServiceAvailable_of_noWait now (Or.inl ha.2)]
    simp only [availAux, hc, enumF]
    rw [ih (i + 1) (fun ts hts => hAll ts (by simp [hts]))]
    simp

theorem rr_step_single (now : Nat) (rand : ℚ) (ptr : Nat) (a : ServiceState)
    (hAll : ∀ ts ∈ [a], ts.enabled = true ∧ ts.circuitBreaker.state = .CLOSED) :
    getNextService now rand .roundRobin ptr [] [a] = (some 0, ptr, [a]) := by
  have hA := availAux_full now [a] 0 hAll
  simp [getNextService, hA, enumF]

theorem rr_step_full (now : Nat) (rand : ℚ) (ptr : Nat)
    (services : List ServiceState)
    (hAll : ∀ ts ∈ services, ts.enabled = true ∧ ts.circuitBreaker.state = .CLOSED)
    (h2 : 2 ≤ services.length) :
    getNextService now rand .roundRobin ptr [] services
      = (some (ptr % services.length), (ptr + 1) % services.length, services) := by
  cases services with
  | nil => simp at h2
  | cons a t =>
    cases t with
    | nil => simp at h2
    | cons b t2 =>
      have hA := availAux_full now (a :: b :: t2) 0 hAll
      have hsort : sortByIdx ((0, a) :: (1, b) :: enumF 2 t2)
          = (0, a) :: (1, b) :: enumF 2 t2 :=
        sortByIdx_eq_self _ (enumF_pairwise (a :: b :: t2) 0)
      have hlen : ((0, a) :: (1, b) :: enumF 2 t2).length = (a :: b :: t2).length :=
        enumF_length (a :: b :: t2) 0
      have hmod : ptr % (a :: b :: t2).length < (a :: b :: t2).length :=
        Nat.mod_lt _ (by simp)
      have hget : ((0, a) :: (1, b) :: enumF 2 t2).getD
          (ptr % (a :: b :: t2).length) (0, dummyService)
            = (0 + ptr % (a :: b :: t2).length,
               (a :: b :: t2).getD (ptr % (a :: b :: t2).length) dummyService) :=
        enumF_getD (a :: b :: t2) 0 (ptr % (a :: b :: t2).length) hmod
      simp only [getNextService, hA]
      rw [show enumF 0 (a :: b :: t2) = (0, a) :: (1, b) :: enumF 2 t2 from rfl]
      simp only [hsort, hlen, hget]
      simp

theorem rrRun_full (now : Nat) (rand : ℚ) :
    ∀ (k ptr : Nat) (services : List ServiceState),
      (∀ ts ∈ services, ts.enabled = true ∧ ts.circuitBreaker.state = .CLOSED) →
      services ≠ [] →
      rrRun now rand [] k (ptr, services)
        = (List.range k).map (fun i => some ((ptr + i) % services.length)) := by
  intro k
  induction k with
  | zero => intro ptr services _ _; rfl
  | succ n ih =>
    intro ptr services hAll hne
    by_cases h1 : services.length = 1
    · obtain ⟨a, rfl⟩ : ∃ a, services = [a] := by
        cases services with
        | nil => simp at h1
        | cons a t =>
          cases t with
          | nil => exact ⟨a, rfl⟩
          | cons b t2 => simp at h1
      simp only [rrRun, rr_step_single now rand ptr a hAll]
      rw [ih ptr [a] hAll (by simp)]
      rw [List.range_succ_eq_map]
      simp [Nat.mod_one, Function.comp_def, List.map_const']
    · have h2 : 2 ≤ services.length := by
        cases services with
        | nil => exact absurd rfl hne
        | cons a t =>
          cases t with
          | nil => simp at h1
          | cons b t2 => simp
      simp only [rrRun, rr_step_full now rand ptr services hAll h2]
      rw [ih ((ptr + 1) % services.length) services hAll hne]
      rw [List.range_succ_eq_map]
      simp only [List.map_cons, List.map_map]
      congr 1
      apply List.map_congr_left
      intro i _
      simp only [Function.comp_apply, Option.some.injEq]
      rw [Nat.mod_add_mod]
      congr 1
      omega

/-- Counterexample to C6: three tracked upstreams, all enabled with closed
breakers, index 2 excluded, so the fixed candidate set is the two indices
0 and 1 (k = 2).  With the process-wide cursor at 2, two consecutive
round-robin selections both return index 0: the cursor wraps modulo the
full sequence length 3 while it indexes into the 2-element candidate list,
so candidate 1 is skipped and candidate 0 repeats before every candidate
was visited. -/
theorem roundRobin_repeat_cex :
    (getNextService 0 0 .roundRobin 2 [2] rrServices).1 = some 0 ∧
    (getNextService 0 0 .roundRobin 2 [2] rrServices).2.1 = 0 ∧
    (getNextService 0 0 .roundRobin 2 [2] rrServices).2.2 = rrServices ∧
    (getNextService 0 0 .roundRobin 0 [2] rrServices).1 = some 0 := by
  refine ⟨?_, ?_, ?_, ?_⟩ <;> decide

/-- C6 amended: over a candidate set that is the whole tracked sequence
(no exclusions, every upstream enabled with a closed breaker),
`trackedCount` consecutive round-robin selections are pairwise distinct —
the i-th selection returns index `(ptr + i) % trackedCount` — so every
candidate is visited once before any repeats; when the candidate set is a
proper subset, a wrap of the cursor can repeat a candidate (see the
counterexample). -/
theorem roundRobin_full_set_distinct (now : Nat) (rand : ℚ) (ptr : Nat)
    (services : List ServiceState)
    (hAll : ∀ ts ∈ services, ts.enabled = true ∧ ts.circuitBreaker.state = .CLOSED)
    (i j : Nat) (hi : i < services.length) (hj : j < services.length)
    (heq : (rrRun now rand [] services.length (ptr, services)).getD i none
         = (rrRun now rand [] services.length (ptr, services)).getD j none) :
    i = j := by
  have hne : services ≠ [] := by
    intro h
    rw [h] at hi
    simp at hi
  rw [rrRun_full now rand services.length ptr services hAll hne] at heq
  rw [List.getD_eq_getElem _ _ (by simpa using hi),
      List.getD_eq_getElem _ _ (by simpa using hj)] at heq
  simp only [List.getElem_map, List.getElem_range, Option.some.injEq] at heq
  have hmod : i % services.length = j % services.length :=
    Nat.ModEq.add_left_cancel' ptr heq
  rwa [Nat.mod_eq_of_lt hi, Nat.mod_eq_of_lt hj] at hmod

/-- Witness for the amended C6 over the three-service pool. -/
theorem roundRobin_full_set_distinct_witness : (1 : Nat) = 1 :=
  roundRobin_full_set_distinct 0 0 5 rrServices (by decide) 1 1 (by decide)
    (by decide) rfl

theorem updAt_of_ge (f : ServiceState → ServiceState) :
    ∀ (l : List ServiceState) (i : Nat), l.length ≤ i → updAt i f l = l := by
  intro l
  induction l with
  | nil => intro i _; cases i <;> rfl
  | cons a t ih =>
    intro i hi
    cases i with
    | zero => simp at hi
    | succ n =>
      simp only [updAt]
      rw [ih n (by simpa using hi)]

theorem getD_updAt_proj {α : Type} (p : ServiceState → α)
    (f : ServiceState → ServiceState) (hf : ∀ ts, p (f ts) = p ts)
    (l : List ServiceState) (i j : Nat) :
    p ((updAt i f l).getD j dummyService) = p (l.getD j dummyService) := by
  by_cases hji : j = i
  · subst hji
    by_cases hl : j < l.length
    · rw [updAt_getD_self f l j hl, hf]
    · rw [updAt_of_ge f l j (le_of_not_lt hl)]
  · rw [updAt_getD_ne f l i j hji]

theorem getD_updAt_succ_delta (a b : Nat) (l : List ServiceState) (i j : Nat)
    (hi : i < l.length) :
    ((updAt i (applySuccess a b) l).getD j dummyService).metrics.successCount
      = (l.getD j dummyService).metrics.successCount + (if j = i then 1 else 0) := by
  by_cases hji : j = i
  · subst hji
    rw [updAt_getD_self _ l j hi]
    simp [applySuccess_succ]
  · rw [updAt_getD_ne _ l i j hji]
    simp [hji]

theorem frameEq_refl (s : ReqState) : FrameEq s s :=
  ⟨rfl, rfl, rfl, rfl, rfl, rfl, rfl, fun _ => rfl⟩

theorem frameEq_trans {s t u : ReqState} (h1 : FrameEq s t) (h2 : FrameEq t u) :
    FrameEq s u := by
  obtain ⟨a1, b1, c1, d1, e1, f1, g1, i1⟩ := h1
  obtain ⟨a2, b2, c2, d2, e2, f2, g2, i2⟩ := h2
  exact ⟨a2.trans a1, b2.trans b1, c2.trans c1, d2.trans d1, e2.trans e1,
         f2.trans f1, g2.trans g1, fun j => (i2 j).trans (i1 j)⟩

theorem frameEq_setStarted (s : ReqState) (b : Bool) :
    FrameEq s { s with started := b } :=
  ⟨rfl, rfl, rfl, rfl, rfl, rfl, rfl, fun _ => rfl⟩

theorem successExit_effects (env : IterEnv) (idx : Nat) (s : ReqState)
    (hidx : idx < s.services.length) :
    FrameEq s (successExit env idx s) ∧
    (successExit env idx s).done = true ∧
    (successExit env idx s).started = s.started ∧
    (successExit env idx s).succRecordings = s.succRecordings + 1 ∧
    (∀ j, succAt (successExit env idx s) j
       = succAt s j + (if j = idx then 1 else 0)) := by
  refine ⟨⟨rfl, rfl, rfl, rfl, rfl, rfl, ?_, ?_⟩, rfl, rfl, rfl, ?_⟩
  · exact updAt_length _ _ _
  · intro j
    show ((updAt idx (applySuccess env.nowStart env.nowEnd) s.services).getD j
            dummyService).enabled
       = (s.services.getD j dummyService).enabled
    exact getD_updAt_proj (fun ts => ts.enabled) _
      (applySuccess_enabled env.nowStart env.nowEnd) s.services idx j
  · intro j
    show ((updAt idx (applySuccess env.nowStart env.nowEnd) s.services).getD j
            dummyService).metrics.successCount
       = (s.services.getD j dummyService).metrics.successCount
         + (if j = idx then 1 else 0)
    exact getD_updAt_succ_delta env.nowStart env.nowEnd s.services idx j hidx

theorem failCatch_effects (msg : String) (env : IterEnv) (idx : Nat)
    (s : ReqState) :
    FrameEq s (failCatch msg env idx s) ∧
    (failCatch msg env idx s).started = s.started ∧
    (s.started = true → (failCatch msg env idx s).done = true) ∧
    (s.started = false → (failCatch msg env idx s).done = s.done) ∧
    (failCatch msg env idx s).succRecordings = s.succRecordings ∧
    (∀ j, succAt (failCatch msg env idx s) j = succAt s j) := by
  have hsvc : (failCatch msg env idx s).services
      = updAt idx (applyFailure msg env.nowStart env.nowEnd) s.services := by
    unfold failCatch
    split <;> rfl
  refine ⟨⟨?_, ?_, ?_, ?_, ?_, ?_, ?_, ?_⟩, ?_, ?_, ?_, ?_, ?_⟩
  · unfold failCatch; split <;> rfl
  · unfold failCatch; split <;> rfl
  · unfold failCatch; split <;> rfl
  · unfold failCatch; split <;> rfl
  · unfold failCatch; split <;> rfl
  · unfold failCatch; split <;> rfl
  · rw [hsvc, updAt_length]
  · intro j
    show ((failCatch msg env idx s).services.getD j dummyService).enabled
       = (s.services.getD j dummyService).enabled
    rw [hsvc]
    exact getD_updAt_proj (fun ts => ts.enabled) _
      (applyFailure_enabled msg env.nowStart env.nowEnd) s.services idx j
  · unfold failCatch; split <;> rfl
  · intro h
    unfold failCatch
    rw [if_pos h]
  · intro h
    unfold failCatch
    rw [if_neg (by simp [h])]
  · unfold failCatch; split <;> rfl
  · intro j
    show ((failCatch msg env idx s).services.getD j
            dummyService).metrics.successCount
       = (s.services.getD j dummyService).metrics.successCount
    rw [hsvc]
    exact getD_updAt_proj (fun ts => ts.metrics.successCount) _
      (applyFailure_succ msg env.nowStart env.nowEnd) s.services idx j

theorem afterChunks_effects (env : IterEnv) (idx : Nat) (s : ReqState)
    (hidx : idx < s.services.length) :
    FrameEq s (afterChunks env idx s) ∧
    ((afterChunks env idx s).done = false →
       (afterChunks env idx s).started = false) ∧
    SuccOutcome idx s (afterChunks env idx s) := by
  unfold afterChunks
  split
  · split
    · next hc1 =>
      rw [hc1]
      refine ⟨frameEq_trans (frameEq_setStarted s true)
                (successExit_effects env idx { s with started := true } hidx).1, ?_,
              Or.inr ⟨(successExit_effects env idx { s with started := true } hidx).2.2.2.1,
                      (successExit_effects env idx { s with started := true } hidx).2.1,
                      (successExit_effects env idx { s with started := true } hidx).2.2.1,
                      (successExit_effects env idx { s with started := true } hidx).2.2.2.2⟩⟩
      intro h
      rw [(successExit_effects env idx { s with started := true } hidx).2.1] at h
      exact Bool.noConfusion h
    · next hc1 =>
      have hc1f : (runChunks s.started env.chunks).1 = false := by
        simpa using hc1
      rw [hc1f]
      exact ⟨frameEq_setStarted s false, fun _ => rfl, Or.inl ⟨rfl, fun _ => rfl⟩⟩
  · split
    · split
      · next hc1 =>
        rw [hc1]
        refine ⟨frameEq_trans (frameEq_setStarted s true)
                  (successExit_effects env idx { s with started := true } hidx).1, ?_,
                Or.inr ⟨(successExit_effects env idx { s with started := true } hidx).2.2.2.1,
                        (successExit_effects env idx { s with started := true } hidx).2.1,
                        (successExit_effects env idx { s with started := true } hidx).2.2.1,
                        (successExit_effects env idx { s with started := true } hidx).2.2.2.2⟩⟩
        intro h
        rw [(successExit_effects env idx { s with started := true } hidx).2.1] at h
        exact Bool.noConfusion h
      · next hc1 =>
        have hc1f : (runChunks s.started env.chunks).1 = false := by
          simpa using hc1
        rw [hc1f]
        exact ⟨frameEq_setStarted s false, fun _ => rfl, Or.inl ⟨rfl, fun _ => rfl⟩⟩
    · next msg _ =>
      refine ⟨frameEq_trans (frameEq_setStarted s _)
                (failCatch_effects msg env idx { s with started := (runChunks s.started env.chunks).1 }).1, ?_,
              Or.inl ⟨(failCatch_effects msg env idx { s with started := (runChunks s.started env.chunks).1 }).2.2.2.2.1,
                      fun j => (failCatch_effects msg env idx { s with started := (runChunks s.started env.chunks).1 }).2.2.2.2.2 j⟩⟩
      intro h
      cases hc1 : (runChunks s.started env.chunks).1 with
      | true =>
        rw [hc1] at h
        have hd := (failCatch_effects msg env idx
          { s with started := true }).2.2.1 rfl
        rw [hd] at h
        exact Bool.noConfusion h
      | false =>
        exact (failCatch_effects msg env idx { s with started := false }).2.1

theorem attemptBody_effects (env : IterEnv) (idx : Nat) (s : ReqState)
    (hidx : idx < s.services.length) :
    FrameEq s (attemptBody env idx s) ∧
    ((attemptBody env idx s).done = false →
       (attemptBody env idx s).started = false) ∧
    SuccOutcome idx s (attemptBody env idx s) := by
  unfold attemptBody
  split
  · next msg _ =>
    refine ⟨(failCatch_effects msg env idx s).1, ?_,
            Or.inl ⟨(failCatch_effects msg env idx s).2.2.2.2.1,
                    fun j => (failCatch_effects msg env idx s).2.2.2.2.2 j⟩⟩
    intro h
    cases hst : s.started with
    | true =>
      have hd := (failCatch_effects msg env idx s).2.2.1 hst
      rw [hd] at h
      exact Bool.noConfusion h
    | false =>
      exact ((failCatch_effects msg env idx s).2.1).trans hst
  · next fres _ =>
    split
    · refine ⟨⟨rfl, rfl, rfl, rfl, rfl, rfl, rfl, fun _ => rfl⟩, ?_,
              Or.inl ⟨rfl, fun _ => rfl⟩⟩
      intro h
      exact Bool.noConfusion h
    · split
      · refine ⟨frameEq_trans (frameEq_setStarted s true)
                  (successExit_effects env idx { s with started := true } hidx).1,
                ?_,
                Or.inr ⟨(successExit_effects env idx
                           { s with started := true } hidx).2.2.2.1,
                        (successExit_effects env idx
                           { s with started := true } hidx).2.1,
                        (successExit_effects env idx
                           { s with started := true } hidx).2.2.1,
                        (successExit_effects env idx
                           { s with started := true } hidx).2.2.2.2⟩⟩
        intro h
        rw [(successExit_effects env idx { s with started := true } hidx).2.1] at h
        exact Bool.noConfusion h
      · split
        · obtain ⟨f1, f2, f3⟩ :=
            afterChunks_effects env idx { s with started := true } hidx
          exact ⟨frameEq_trans (frameEq_setStarted s true) f1, f2, f3⟩
        · exact afterChunks_effects env idx s hidx

theorem runAttempt_effects (env : IterEnv) (idx : Nat) (s : ReqState)
    (hidx : idx < s.services.length) :
    FrameEq s (runAttempt env idx s) ∧
    ((runAttempt env idx s).done = false →
       (runAttempt env idx s).started = false) ∧
    SuccOutcome idx s (runAttempt env idx s) := by
  have hP : FrameEq s { s with services := updAt idx attemptProlog s.services } := by
    refine ⟨rfl, rfl, rfl, rfl, rfl, rfl, ?_, ?_⟩
    · exact updAt_length _ _ _
    · intro j
      show ((updAt idx attemptProlog s.services).getD j dummyService).enabled
         = (s.services.getD j dummyService).enabled
      exact getD_updAt_proj (fun ts => ts.enabled) _
        (fun ts => attemptProlog_enabled ts) s.services idx j
  have hPs : ∀ j,
      succAt { s with services := updAt idx attemptProlog s.services } j
        = succAt s j := by
    intro j
    show ((updAt idx attemptProlog s.services).getD j
            dummyService).metrics.successCount
       = (s.services.getD j dummyService).metrics.successCount
    exact getD_updAt_proj (fun ts => ts.metrics.successCount) _
      (fun ts => attemptProlog_succ ts) s.services idx j
  have hl : idx <
      ({ s with services := updAt idx attemptProlog s.services } :
        ReqState).services.length := by
    show idx < (updAt idx attemptProlog s.services).length
    rw [updAt_length]
    exact hidx
  obtain ⟨f1, f2, f3⟩ :=
    attemptBody_effects env idx
      { s with services := updAt idx attemptProlog s.services } hl
  unfold runAttempt
  refine ⟨frameEq_trans hP f1, f2, ?_⟩
  rcases f3 with ⟨h1, h2⟩ | ⟨h1, h2, h3, h4⟩
  · exact Or.inl ⟨h1, fun j => (h2 j).trans (hPs j)⟩
  · exact Or.inr ⟨h1, h2, h3, fun j => (h4 j).trans (by rw [hPs j])⟩

theorem loopStep_done (mode : RoutingMode) (env : IterEnv) {s : ReqState}
    (h : s.done = true) : loopStep mode env s = s := by
  unfold loopStep
  rw [if_pos h]

theorem runFrom_done (mode : RoutingMode) (envs : Nat → IterEnv) (k : Nat)
    {s : ReqState} (h : s.done = true) :
    ∀ j, runFrom mode envs k s j = s := by
  intro j
  induction j with
  | zero => rfl
  | succ n ih =>
    show loopStep mode (envs (k + n)) (runFrom mode envs k s n) = s
    rw [ih]
    exact loopStep_done mode (envs (k + n)) h

theorem loopRun_eq_runFrom (mode : RoutingMode) (envs : Nat → IterEnv)
    (s0 : ReqState) (k : Nat) :
    ∀ j, loopRun mode envs s0 (k + j)
      = runFrom mode envs k (loopRun mode envs s0 k) j := by
  intro j
  induction j with
  | zero => rfl
  | succ n ih =>
    show loopStep mode (envs (k + n)) (loopRun mode envs s0 (k + n)) = _
    rw [ih]
    rfl

theorem runFrom_add (mode : RoutingMode) (envs : Nat → IterEnv) (k : Nat)
    (s : ReqState) (a : Nat) :
    ∀ b, runFrom mode envs k s (a + b)
      = runFrom mode envs (k + a) (runFrom mode envs k s a) b := by
  intro b
  induction b with
  | zero => rfl
  | succ n ih =>
    show loopStep mode (envs (k + (a + n))) (runFrom mode envs k s (a + n)) = _
    rw [ih]
    show _ = loopStep mode (envs (k + a + n)) (runFrom mode envs (k + a)
      (runFrom mode envs k s a) n)
    rw [Nat.add_assoc]

theorem tried_length_lt {l : List Nat} {n k : Nat} (hnd : l.Nodup)
    (hbd : ∀ i ∈ l, i < n) (hk : k < n) (hkn : k ∉ l) : l.length < n := by
  have hsub : l.toFinset ⊆ (Finset.range n).erase k := by
    intro x hx
    rw [List.mem_toFinset] at hx
    refine Finset.mem_erase.mpr ⟨?_, Finset.mem_range.mpr (hbd x hx)⟩
    rintro rfl
    exact hkn hx
  have hcard := Finset.card_le_card hsub
  rw [List.toFinset_card_of_nodup hnd] at hcard
  have hcr : ((Finset.range n).erase k).card = n - 1 := by
    rw [Finset.card_erase_of_mem (Finset.mem_range.mpr hk), Finset.card_range]
  omega

theorem getNextService_keeps (now : Nat) (rand : ℚ) (mode : RoutingMode)
    (ptr : Nat) (ex : List Nat) (services : List ServiceState) :
    (getNextService now rand mode ptr ex services).2.2.length
      = services.length ∧
    ∀ k, (((getNextService now rand mode ptr ex services).2.2.getD k
             dummyService).enabled
            = (services.getD k dummyService).enabled) ∧
         (((getNextService now rand mode ptr ex services).2.2.getD k
             dummyService).metrics
            = (services.getD k dummyService).metrics) := by
  rw [getNextService_snd_services]
  exact ⟨availAux_snd_length now ex services 0,
         fun k => availAux_snd_getD now ex services 0 k⟩

theorem dispatch_path_facts (env : IterEnv) (idx : Nat)
    (g : Option Nat × Nat × List ServiceState) (s : ReqState)
    (hglen : g.2.2.length = s.services.length)
    (hgen : ∀ k, (g.2.2.getD k dummyService).enabled
              = (s.services.getD k dummyService).enabled)
    (hgm : ∀ k, (g.2.2.getD k dummyService).metrics
              = (s.services.getD k dummyService).metrics)
    (hex : idx ∉ s.tried) (hlt : idx < s.services.length) :
    (runAttempt env idx (dispatchProlog idx (afterSelect g s))).tried
      = idx :: s.tried ∧
    (runAttempt env idx (dispatchProlog idx (afterSelect g s))).dispatched
      = s.dispatched ++ [idx] ∧
    (runAttempt env idx (dispatchProlog idx (afterSelect g s))).attemptNumber
      = s.attemptNumber + 1 ∧
    (runAttempt env idx (dispatchProlog idx (afterSelect g s))).selectorCalls
      = s.selectorCalls + 1 ∧
    (runAttempt env idx (dispatchProlog idx (afterSelect g s))).sleeps
      ≤ s.sleeps + 1 ∧
    (runAttempt env idx (dispatchProlog idx (afterSelect g s))).services.length
      = s.services.length ∧
    (∀ j, enabledAt (runAttempt env idx (dispatchProlog idx (afterSelect g s))) j
       = enabledAt s j) ∧
    ((runAttempt env idx (dispatchProlog idx (afterSelect g s))).done = false →
       (runAttempt env idx (dispatchProlog idx (afterSelect g s))).started
         = false) ∧
    SuccOutcome idx s (runAttempt env idx (dispatchProlog idx (afterSelect g s))) := by
  have hS2idx : idx < (dispatchProlog idx (afterSelect g s)).services.length := by
    show idx < g.2.2.length
    rw [hglen]
    exact hlt
  obtain ⟨F, Himp, HS⟩ :=
    runAttempt_effects env idx (dispatchProlog idx (afterSelect g s)) hS2idx
  obtain ⟨Ft, Fd, Fa, Fc, Fsl, Fr, Flen, Fen⟩ := F
  have hsc : ∀ j, succAt (dispatchProlog idx (afterSelect g s)) j = succAt s j := by
    intro j
    show (g.2.2.getD j dummyService).metrics.successCount
       = (s.services.getD j dummyService).metrics.successCount
    rw [hgm j]
  refine ⟨?_, Fd, Fa, Fc, ?_, ?_, ?_, Himp, ?_⟩
  · rw [Ft]
    show (if idx ∈ s.tried then s.tried else idx :: s.tried) = idx :: s.tried
    rw [if_neg hex]
  · rw [Fsl]
    show s.sleeps + (if 1 < s.attemptNumber + 1 then 1 else 0) ≤ s.sleeps + 1
    split <;> omega
  · rw [Flen]
    exact hglen
  · intro j
    exact (Fen j).trans (hgen j)
  · rcases HS with ⟨h1, h2⟩ | ⟨h1, h2a, h2b, h2c⟩
    · exact Or.inl ⟨h1, fun j => (h2 j).trans (hsc j)⟩
    · exact Or.inr ⟨h1, h2a, h2b, fun j => (h2c j).trans (by rw [hsc j])⟩

theorem loopStep_eq_exit (mode : RoutingMode) (env : IterEnv) (s : ReqState)
    (hdone : s.done = false)
    (h : ¬(s.tried.length < s.services.length ∧ env.abortAtGuard = false)) :
    loopStep mode env s = { s with done := true } := by
  have hc : (!(decide (s.tried.length < s.services.length)
      && !env.abortAtGuard)) = true := by
    rcases Bool.eq_false_or_eq_true env.abortAtGuard with hab | hab
    · simp [hab]
    · have hng : ¬(s.tried.length < s.services.length) := fun hg => h ⟨hg, hab⟩
      simp [hng]
  unfold loopStep
  rw [if_neg (by simp [hdone]), if_pos hc]

theorem loopStep_eq_null (mode : RoutingMode) (env : IterEnv) (s : ReqState)
    (hdone : s.done = false)
    (hguard : s.tried.length < s.services.length)
    (hab : env.abortAtGuard = false)
    (hsel : (getNextService env.nowSelect env.rand mode s.rrPtr s.tried
               s.services).1 = none) :
    loopStep mode env s
      = nullBranch env (afterSelect
          (getNextService env.nowSelect env.rand mode s.rrPtr s.tried
            s.services) s) := by
  unfold loopStep
  rw [if_neg (by simp [hdone]), if_neg (by simp [hguard, hab]), hsel]

theorem loopStep_eq_dispatch (mode : RoutingMode) (env : IterEnv) (s : ReqState)
    (idx : Nat) (hdone : s.done = false)
    (hguard : s.tried.length < s.services.length)
    (hab : env.abortAtGuard = false)
    (hsel : (getNextService env.nowSelect env.rand mode s.rrPtr s.tried
               s.services).1 = some idx) :
    loopStep mode env s
      = runAttempt env idx (dispatchProlog idx (afterSelect
          (getNextService env.nowSelect env.rand mode s.rrPtr s.tried
            s.services) s)) := by
  unfold loopStep
  rw [if_neg (by simp [hdone]), if_neg (by simp [hguard, hab]), hsel]

theorem null_path_facts (env : IterEnv)
    (g : Option Nat × Nat × List ServiceState) (s : ReqState)
    (hglen : g.2.2.length = s.services.length)
    (hgen : ∀ k, (g.2.2.getD k dummyService).enabled
              = (s.services.getD k dummyService).enabled)
    (hgm : ∀ k, (g.2.2.getD k dummyService).metrics
              = (s.services.getD k dummyService).metrics) :
    (nullBranch env (afterSelect g s)).tried = s.tried ∧
    (nullBranch env (afterSelect g s)).dispatched = s.dispatched ∧
    (nullBranch env (afterSelect g s)).attemptNumber = s.attemptNumber ∧
    (nullBranch env (afterSelect g s)).started = s.started ∧
    (nullBranch env (afterSelect g s)).selectorCalls = s.selectorCalls + 1 ∧
    (nullBranch env (afterSelect g s)).succRecordings = s.succRecordings ∧
    (∀ j, succAt (nullBranch env (afterSelect g s)) j = succAt s j) ∧
    (nullBranch env (afterSelect g s)).services.length = s.services.length ∧
    (∀ j, enabledAt (nullBranch env (afterSelect g s)) j = enabledAt s j) ∧
    s.sleeps ≤ (nullBranch env (afterSelect g s)).sleeps ∧
    (nullBranch env (afterSelect g s)).sleeps ≤ s.sleeps + 1 ∧
    ((nullBranch env (afterSelect g s)).done = true ∨
     ((nullBranch env (afterSelect g s)).done = s.done ∧
      (nullBranch env (afterSelect g s)).sleeps = s.sleeps + 1 ∧
      0 < s.attemptNumber ∧
      hasFreshAvailable (nullBranch env (afterSelect g s)))) := by
  unfold nullBranch
  split
  · next hatt =>
    split
    · next hr =>
      refine ⟨rfl, rfl, rfl, rfl, rfl, rfl, ?_, ?_, ?_, Nat.le_succ _,
              Nat.le_refl _, Or.inr ⟨rfl, rfl, hatt, ?_⟩⟩
      · intro j
        show ((reprobeAux env.nowReprobe s.tried 0 g.2.2).2.getD j
                dummyService).metrics.successCount
           = (s.services.getD j dummyService).metrics.successCount
        exact congrArg ServiceMetrics.successCount
          (((reprobeAux_snd_getD env.nowReprobe s.tried g.2.2 0 j).2).trans (hgm j))
      · show (reprobeAux env.nowReprobe s.tried 0 g.2.2).2.length
           = s.services.length
        rw [reprobeAux_snd_length]
        exact hglen
      · intro j
        show ((reprobeAux env.nowReprobe s.tried 0 g.2.2).2.getD j
                dummyService).enabled
           = (s.services.getD j dummyService).enabled
        exact ((reprobeAux_snd_getD env.nowReprobe s.tried g.2.2 0 j).1).trans
          (hgen j)
      · obtain ⟨k, hk1, hk2, hk3⟩ :=
          reprobeAux_true env.nowReprobe s.tried g.2.2 0 hr
        refine ⟨k, ?_, ?_, hk3⟩
        · show k < (reprobeAux env.nowReprobe s.tried 0 g.2.2).2.length
          rw [reprobeAux_snd_length]
          exact hk1
        · show k ∉ s.tried
          simpa using hk2
    · next hr =>
      refine ⟨rfl, rfl, rfl, rfl, rfl, rfl, ?_, ?_, ?_, Nat.le_succ _,
              Nat.le_refl _, Or.inl rfl⟩
      · intro j
        show ((reprobeAux env.nowReprobe s.tried 0 g.2.2).2.getD j
                dummyService).metrics.successCount
           = (s.services.getD j dummyService).metrics.successCount
        exact congrArg ServiceMetrics.successCount
          (((reprobeAux_snd_getD env.nowReprobe s.tried g.2.2 0 j).2).trans (hgm j))
      · show (reprobeAux env.nowReprobe s.tried 0 g.2.2).2.length
           = s.services.length
        rw [reprobeAux_snd_length]
        exact hglen
      · intro j
        show ((reprobeAux env.nowReprobe s.tried 0 g.2.2).2.getD j
                dummyService).enabled
           = (s.services.getD j dummyService).enabled
        exact ((reprobeAux_snd_getD env.nowReprobe s.tried g.2.2 0 j).1).trans
          (hgen j)
  · refine ⟨rfl, rfl, rfl, rfl, rfl, rfl, ?_, ?_, ?_, Nat.le_refl _,
            Nat.le_succ _, Or.inl rfl⟩
    · intro j
      show (g.2.2.getD j dummyService).metrics.successCount
         = (s.services.getD j dummyService).metrics.successCount
      exact congrArg ServiceMetrics.successCount (hgm j)
    · exact hglen
    · intro j
      exact hgen j

theorem c1_step (mode : RoutingMode) (env : IterEnv) {s0 s : ReqState}
    (h : C1Master s0 s) : C1Master s0 (loopStep mode env s) := by
  obtain ⟨hnd, hsub, htnd, htbd, hlen, hds, od, hod, hrec, hodp⟩ := h
  rcases Bool.eq_false_or_eq_true s.done with hdt | hdf
  · rw [loopStep_done mode env hdt]
    exact ⟨hnd, hsub, htnd, htbd, hlen, hds, od, hod, hrec, hodp⟩
  · have hstf : s.started = false := hds hdf
    have hodn : od = none := by
      by_contra hne
      have hd2 := (hodp hne).2
      rw [hdf] at hd2
      exact Bool.noConfusion hd2
    subst hodn
    have hod0 : ∀ j, succAt s j = succAt s0 j := by
      intro j
      have := hod j
      simpa using this
    by_cases hguard : s.tried.length < s.services.length ∧ env.abortAtGuard = false
    · obtain ⟨hg, hab⟩ := hguard
      cases hsel : (getNextService env.nowSelect env.rand mode s.rrPtr s.tried
          s.services).1 with
      | none =>
        rw [loopStep_eq_null mode env s hdf hg hab hsel]
        obtain ⟨n1, n2, n3, n4, n5, n6, n7, n8, n9, n10, n11, n12⟩ :=
          null_path_facts env
            (getNextService env.nowSelect env.rand mode s.rrPtr s.tried
              s.services) s
            (getNextService_keeps env.nowSelect env.rand mode s.rrPtr s.tried
              s.services).1
            (fun k => ((getNextService_keeps env.nowSelect env.rand mode s.rrPtr
              s.tried s.services).2 k).1)
            (fun k => ((getNextService_keeps env.nowSelect env.rand mode s.rrPtr
              s.tried s.services).2 k).2)
        refine ⟨by rw [n2]; exact hnd, ?_, by rw [n1]; exact htnd, ?_,
                n8.trans hlen, ?_, none, ?_, ?_, fun hne => absurd rfl hne⟩
        · intro i hi
          rw [n1]
          rw [n2] at hi
          exact hsub i hi
        · intro i hi
          rw [n8]
          rw [n1] at hi
          exact htbd i hi
        · intro _
          rw [n4]
          exact hstf
        · intro j
          rw [n7 j]
          exact hod j
        · rw [n6]
          exact hrec
      | some idx =>
        rw [loopStep_eq_dispatch mode env s idx hdf hg hab hsel]
        obtain ⟨hex, hlt⟩ := getNextService_some_props env.nowSelect env.rand
          mode s.rrPtr s.tried s.services idx hsel
        obtain ⟨d1, d2, d3, d4, d5, d6, d7, d8, d9⟩ :=
          dispatch_path_facts env idx
            (getNextService env.nowSelect env.rand mode s.rrPtr s.tried
              s.services) s
            (getNextService_keeps env.nowSelect env.rand mode s.rrPtr s.tried
              s.services).1
            (fun k => ((getNextService_keeps env.nowSelect env.rand mode s.rrPtr
              s.tried s.services).2 k).1)
            (fun k => ((getNextService_keeps env.nowSelect env.rand mode s.rrPtr
              s.tried s.services).2 k).2)
            hex hlt
        refine ⟨?_, ?_, ?_, ?_, d6.trans hlen, d8, ?_⟩
        · rw [d2, List.nodup_append]
          refine ⟨hnd, List.nodup_singleton idx, ?_⟩
          intro a ha hb
          rw [List.mem_singleton] at hb
          subst hb
          exact hex (hsub a ha)
        · intro i hi
          rw [d2] at hi
          rw [d1]
          rcases List.mem_append.mp hi with hi1 | hi2
          · exact List.mem_cons_of_mem idx (hsub i hi1)
          · rw [List.mem_singleton] at hi2
            subst hi2
            exact List.mem_cons_self i s.tried
        · rw [d1]
          exact List.nodup_cons.mpr ⟨hex, htnd⟩
        · intro i hi
          rw [d1] at hi
          rw [d6]
          rcases List.mem_cons.mp hi with hi1 | hi2
          · subst hi1
            exact hlt
          · exact htbd i hi2
        · rcases d9 with ⟨e1, e2⟩ | ⟨e1, e2, e3, e4⟩
          · refine ⟨none, ?_, e1.trans hrec, fun hne => absurd rfl hne⟩
            intro j
            rw [e2 j]
            exact hod j
          · refine ⟨some idx, ?_, ?_, fun _ => ⟨e3, e2⟩⟩
            · intro j
              rw [e4 j, hod0 j]
              by_cases hji : j = idx
              · subst hji
                simp
              · simp [hji, Ne.symm hji]
            · rw [e1, hrec]
              simp
    · rw [loopStep_eq_exit mode env s hdf hguard]
      refine ⟨hnd, hsub, htnd, htbd, hlen, ?_, none, hod, hrec,
              fun hne => absurd rfl hne⟩
      intro hcontra
      exact Bool.noConfusion hcontra

theorem loopStep_null_facts (mode : RoutingMode) (env : IterEnv) (s : ReqState)
    (hdone : s.done = false) (hguard : s.tried.length < s.services.length)
    (hab : env.abortAtGuard = false)
    (hsel : (getNextService env.nowSelect env.rand mode s.rrPtr s.tried
               s.services).1 = none) :
    (loopStep mode env s).tried = s.tried ∧
    (loopStep mode env s).dispatched = s.dispatched ∧
    (loopStep mode env s).attemptNumber = s.attemptNumber ∧
    (loopStep mode env s).started = s.started ∧
    (loopStep mode env s).selectorCalls = s.selectorCalls + 1 ∧
    (loopStep mode env s).succRecordings = s.succRecordings ∧
    (∀ j, succAt (loopStep mode env s) j = succAt s j) ∧
    (loopStep mode env s).services.length = s.services.length ∧
    (∀ j, enabledAt (loopStep mode env s) j = enabledAt s j) ∧
    s.sleeps ≤ (loopStep mode env s).sleeps ∧
    (loopStep mode env s).sleeps ≤ s.sleeps + 1 ∧
    ((loopStep mode env s).done = true ∨
     ((loopStep mode env s).done = s.done ∧
      (loopStep mode env s).sleeps = s.sleeps + 1 ∧
      0 < s.attemptNumber ∧ hasFreshAvailable (loopStep mode env s))) := by
  rw [loopStep_eq_null mode env s hdone hguard hab hsel]
  exact null_path_facts env _ s
    (getNextService_keeps env.nowSelect env.rand mode s.rrPtr s.tried
      s.services).1
    (fun k => ((getNextService_keeps env.nowSelect env.rand mode s.rrPtr
      s.tried s.services).2 k).1)
    (fun k => ((getNextService_keeps env.nowSelect env.rand mode s.rrPtr
      s.tried s.services).2 k).2)

theorem loopStep_dispatch_facts (mode : RoutingMode) (env : IterEnv)
    (s : ReqState) (idx : Nat)
    (hdone : s.done = false) (hguard : s.tried.length < s.services.length)
    (hab : env.abortAtGuard = false)
    (hsel : (getNextService env.nowSelect env.rand mode s.rrPtr s.tried
               s.services).1 = some idx) :
    idx ∉ s.tried ∧ idx < s.services.length ∧
    (loopStep mode env s).tried = idx :: s.tried ∧
    (loopStep mode env s).dispatched = s.dispatched ++ [idx] ∧
    (loopStep mode env s).attemptNumber = s.attemptNumber + 1 ∧
    (loopStep mode env s).selectorCalls = s.selectorCalls + 1 ∧
    (loopStep mode env s).sleeps ≤ s.sleeps + 1 ∧
    (loopStep mode env s).services.length = s.services.length ∧
    (∀ j, enabledAt (loopStep mode env s) j = enabledAt s j) ∧
    ((loopStep mode env s).done = false →
       (loopStep mode env s).started = false) ∧
    SuccOutcome idx s (loopStep mode env s) := by
  obtain ⟨hex, hlt⟩ := getNextService_some_props env.nowSelect env.rand mode
    s.rrPtr s.tried s.services idx hsel
  rw [loopStep_eq_dispatch mode env s idx hdone hguard hab hsel]
  exact ⟨hex, hlt, dispatch_path_facts env idx _ s
    (getNextService_keeps env.nowSelect env.rand mode s.rrPtr s.tried
      s.services).1
    (fun k => ((getNextService_keeps env.nowSelect env.rand mode s.rrPtr
      s.tried s.services).2 k).1)
    (fun k => ((getNextService_keeps env.nowSelect env.rand mode s.rrPtr
      s.tried s.services).2 k).2)
    hex hlt⟩

theorem loopStep_tried_mono (mode : RoutingMode) (env : IterEnv) (s : ReqState) :
    ∀ i ∈ s.tried, i ∈ (loopStep mode env s).tried := by
  intro i hi
  rcases Bool.eq_false_or_eq_true s.done with hdt | hdf
  · rw [loopStep_done mode env hdt]
    exact hi
  · by_cases hguard : s.tried.length < s.services.length ∧
      env.abortAtGuard = false
    · obtain ⟨hg, hab⟩ := hguard
      cases hsel : (getNextService env.nowSelect env.rand mode s.rrPtr s.tried
          s.services).1 with
      | none =>
        rw [(loopStep_null_facts mode env s hdf hg hab hsel).1]
        exact hi
      | some idx =>
        rw [(loopStep_dispatch_facts mode env s idx hdf hg hab hsel).2.2.1]
        exact List.mem_cons_of_mem idx hi
    · rw [loopStep_eq_exit mode env s hdf hguard]
      exact hi

/-- C1: over any request run of the failover loop — any routing mode, any
adapter, abort and clock behaviour, any tracked sequence — the tried set
only grows from one iteration to the next; no tracked index is dispatched
twice (the dispatch log is duplicate-free); once a chunk has been emitted
to the client (`started`), the loop state is frozen, so no further
upstream is selected or attempted, even if the committed stream later
fails; and at most one upstream has its success counter incremented as a
result of the request — and only when the request committed. -/
theorem failover_loop_invariants (mode : RoutingMode) (envs : Nat → IterEnv)
    (services : List ServiceState) (ptr : Nat) (k : Nat) :
    (∀ i, i ∈ (loopRun mode envs (initReqState services ptr) k).tried →
       i ∈ (loopRun mode envs (initReqState services ptr) (k + 1)).tried) ∧
    (loopRun mode envs (initReqState services ptr) k).dispatched.Nodup ∧
    ((loopRun mode envs (initReqState services ptr) k).started = true →
       ∀ m, loopRun mode envs (initReqState services ptr) (k + m)
         = loopRun mode envs (initReqState services ptr) k) ∧
    (∃ od : Option Nat,
       (∀ j, succAt (loopRun mode envs (initReqState services ptr) k) j
          = succAt (initReqState services ptr) j
            + (if od = some j then 1 else 0)) ∧
       (od ≠ none →
          (loopRun mode envs (initReqState services ptr) k).started = true)) := by
  have hrun : ∀ n, C1Master (initReqState services ptr)
      (loopRun mode envs (initReqState services ptr) n) := by
    intro n
    induction n with
    | zero =>
      refine ⟨List.nodup_nil, ?_, List.nodup_nil, ?_, rfl, fun _ => rfl,
              none, ?_, ?_, fun hne => absurd rfl hne⟩
      · intro i hi
        exact absurd hi (List.not_mem_nil i)
      · intro i hi
        exact absurd hi (List.not_mem_nil i)
      · intro j
        simp [loopRun]
      · simp [loopRun]
    | succ n ih => exact c1_step mode (envs n) ih
  obtain ⟨hnd, hsub, htnd, htbd, hlen, hds, od, hod, hrec, hodp⟩ := hrun k
  refine ⟨?_, hnd, ?_, od, hod, fun hne => (hodp hne).1⟩
  · intro i hi
    exact loopStep_tried_mono mode (envs k) _ i hi
  · intro hst m
    have hdone : (loopRun mode envs (initReqState services ptr) k).done
        = true := by
      rcases Bool.eq_false_or_eq_true
        (loopRun mode envs (initReqState services ptr) k).done with hdt | hdf
      · exact hdt
      · rw [hds hdf] at hst
        exact Bool.noConfusion hst
    rw [loopRun_eq_runFrom mode envs (initReqState services ptr) k m]
    exact runFrom_done mode envs k hdone m

theorem c1_run (mode : RoutingMode) (envs : Nat → IterEnv)
    (services : List ServiceState) (ptr : Nat) :
    ∀ n, C1Master (initReqState services ptr)
      (loopRun mode envs (initReqState services ptr) n) := by
  intro n
  induction n with
  | zero =>
    refine ⟨List.nodup_nil, ?_, List.nodup_nil, ?_, rfl, fun _ => rfl,
            none, ?_, ?_, fun hne => absurd rfl hne⟩
    · intro i hi
      exact absurd hi (List.not_mem_nil i)
    · intro i hi
      exact absurd hi (List.not_mem_nil i)
    · intro j
      simp [loopRun]
    · simp [loopRun]
  | succ n ih => exact c1_step mode (envs n) ih

/-- C8 (amended): if a request run ends without having committed
(`started = false` — in particular when the client disconnected before the
first chunk was emitted), then no success is recorded for any upstream: no
success recording ran and every success counter is unchanged.  (The
unamended claim fails when the abort arrives after commit: see the
counterexample, where the post-loop success recording still runs.) -/
theorem no_commit_no_success (mode : RoutingMode) (envs : Nat → IterEnv)
    (services : List ServiceState) (ptr : Nat) (k : Nat)
    (h : (loopRun mode envs (initReqState services ptr) k).started = false) :
    (loopRun mode envs (initReqState services ptr) k).succRecordings = 0 ∧
    ∀ j, succAt (loopRun mode envs (initReqState services ptr) k) j
      = succAt (initReqState services ptr) j := by
  obtain ⟨hnd, hsub, htnd, htbd, hlen, hds, od, hod, hrec, hodp⟩ :=
    c1_run mode envs services ptr k
  have hodn : od = none := by
    by_contra hne
    have hst := (hodp hne).1
    rw [h] at hst
    exact Bool.noConfusion hst
  subst hodn
  constructor
  · rw [hrec]
    simp [initReqState]
  · intro j
    have := hod j
    simpa using this

/-- C8 counterexample: a client disconnect observed after the first chunk
was emitted (the abort flag is read before the second chunk, so the
`for await` loop breaks with `started = true`) still runs the post-loop
success recording: the committed upstream's success counter is
incremented and a success recording executes, contradicting the claim
that a cancelled request records no metrics success regardless of whether
it had committed. -/
theorem cancelled_commit_records_success_cex :
    (loopRun .smart (fun _ => c8Env) (initReqState c8Services 0) 1).started
      = true ∧
    (loopRun .smart (fun _ => c8Env)
      (initReqState c8Services 0) 1).succRecordings = 1 ∧
    succAt (loopRun .smart (fun _ => c8Env) (initReqState c8Services 0) 1) 0
      = 1 ∧
    (loopRun .smart (fun _ => c8Env) (initReqState c8Services 0) 1).done
      = true := by
  decide

theorem no_commit_no_success_witness :
    (loopRun .smart wEnvs (initReqState [wSvc] 0) 2).started = false ∧
    (loopRun .smart wEnvs (initReqState [wSvc] 0) 2).succRecordings = 0 :=
  ⟨by decide, (no_commit_no_success .smart wEnvs [wSvc] 0 2 (by decide)).1⟩

theorem loopStep_of_fresh (mode : RoutingMode) (env : IterEnv) (t : ReqState)
    (hdone : t.done = false) (hfresh : hasFreshAvailable t)
    (hen : allEnabled t) (hnd : t.tried.Nodup)
    (hbd : ∀ i ∈ t.tried, i < t.services.length) :
    ((loopStep mode env t).done = true ∧
     (loopStep mode env t).selectorCalls ≤ t.selectorCalls + 1 ∧
     (loopStep mode env t).sleeps ≤ t.sleeps + 1) ∨
    (∃ idx, idx ∉ t.tried ∧ idx < t.services.length ∧
      (loopStep mode env t).tried = idx :: t.tried ∧
      (loopStep mode env t).selectorCalls = t.selectorCalls + 1 ∧
      (loopStep mode env t).sleeps ≤ t.sleeps + 1 ∧
      (loopStep mode env t).services.length = t.services.length ∧
      (∀ j, enabledAt (loopStep mode env t) j = enabledAt t j)) := by
  obtain ⟨k0, hk0l, hk0t, hk0a⟩ := hfresh
  have hg : t.tried.length < t.services.length :=
    tried_length_lt hnd hbd hk0l hk0t
  rcases Bool.eq_false_or_eq_true env.abortAtGuard with habt | habf
  · have heq : loopStep mode env t = { t with done := true } :=
      loopStep_eq_exit mode env t hdone
        (fun hc => Bool.noConfusion (habt.symm.trans hc.2))
    rw [heq]
    exact Or.inl ⟨rfl, Nat.le_succ _, Nat.le_succ _⟩
  · cases hsel : (getNextService env.nowSelect env.rand mode t.rrPtr t.tried
        t.services).1 with
    | none =>
      exfalso
      have hnil := getNextService_none env.nowSelect env.rand mode t.rrPtr
        t.tried t.services hsel
      exact availAux_ne_nil env.nowSelect t.tried t.services 0 k0 hk0l
        (by simpa using hk0t) (hen k0 hk0l) hk0a hnil
    | some idx =>
      obtain ⟨hex, hlt, d3, _, _, d6, d7, d8, d9, _, _⟩ :=
        loopStep_dispatch_facts mode env t idx hdone hg habf hsel
      exact Or.inr ⟨idx, hex, hlt, d3, d6, d7, d8, d9⟩

theorem terminates_aux (mode : RoutingMode) (envs : Nat → IterEnv) :
    ∀ (n k : Nat) (s : ReqState),
      allEnabled s → s.tried.Nodup →
      (∀ i ∈ s.tried, i < s.services.length) →
      s.services.length - s.tried.length ≤ n →
      ∃ j, j ≤ 2 * n + 1 ∧ (runFrom mode envs k s j).done = true ∧
        (runFrom mode envs k s j).selectorCalls
          ≤ s.selectorCalls + 2 * n + 1 ∧
        (runFrom mode envs k s j).sleeps ≤ s.sleeps + 2 * n := by
  intro n
  induction n with
  | zero =>
    intro k s hen hnd hbd hm
    rcases Bool.eq_false_or_eq_true s.done with hdt | hdf
    · refine ⟨0, Nat.zero_le _, hdt, ?_, ?_⟩
      · show s.selectorCalls ≤ s.selectorCalls + 2 * 0 + 1
        omega
      · show s.sleeps ≤ s.sleeps + 2 * 0
        omega
    · have heq : loopStep mode (envs (k + 0)) s = { s with done := true } :=
        loopStep_eq_exit mode (envs (k + 0)) s hdf
          (fun hc => absurd hc.1 (by omega))
      refine ⟨1, by omega, ?_, ?_, ?_⟩
      · show (loopStep mode (envs (k + 0)) s).done = true
        rw [heq]
      · show (loopStep mode (envs (k + 0)) s).selectorCalls
            ≤ s.selectorCalls + 2 * 0 + 1
        rw [heq]
        show s.selectorCalls ≤ s.selectorCalls + 2 * 0 + 1
        omega
      · show (loopStep mode (envs (k + 0)) s).sleeps ≤ s.sleeps + 2 * 0
        rw [heq]
        show s.sleeps ≤ s.sleeps + 2 * 0
        omega
  | succ n ih =>
    intro k s hen hnd hbd hm
    rcases Bool.eq_false_or_eq_true s.done with hdt | hdf
    · refine ⟨0, Nat.zero_le _, hdt, ?_, ?_⟩
      · show s.selectorCalls ≤ s.selectorCalls + 2 * (n + 1) + 1
        omega
      · show s.sleeps ≤ s.sleeps + 2 * (n + 1)
        omega
    · by_cases hguard : s.tried.length < s.services.length
      · rcases Bool.eq_false_or_eq_true (envs (k + 0)).abortAtGuard
          with habt | habf
        · have heq : loopStep mode (envs (k + 0)) s = { s with done := true } :=
            loopStep_eq_exit mode (envs (k + 0)) s hdf
              (fun hc => Bool.noConfusion (habt.symm.trans hc.2))
          refine ⟨1, by omega, ?_, ?_, ?_⟩
          · show (loopStep mode (envs (k + 0)) s).done = true
            rw [heq]
          · show (loopStep mode (envs (k + 0)) s).selectorCalls
                ≤ s.selectorCalls + 2 * (n + 1) + 1
            rw [heq]
            show s.selectorCalls ≤ s.selectorCalls + 2 * (n + 1) + 1
            omega
          · show (loopStep mode (envs (k + 0)) s).sleeps
                ≤ s.sleeps + 2 * (n + 1)
            rw [heq]
            show s.sleeps ≤ s.sleeps + 2 * (n + 1)
            omega
        · cases hsel : (getNextService (envs (k + 0)).nowSelect
              (envs (k + 0)).rand mode s.rrPtr s.tried s.services).1 with
          | some idx =>
            obtain ⟨hex, hlt, d3, d4, d5, d6, d7, d8, d9, d10, d11⟩ :=
              loopStep_dispatch_facts mode (envs (k + 0)) s idx hdf hguard
                habf hsel
            rcases Bool.eq_false_or_eq_true
                (loopStep mode (envs (k + 0)) s).done with htd | htf
            · refine ⟨1, by omega, htd, ?_, ?_⟩
              · show (loopStep mode (envs (k + 0)) s).selectorCalls
                    ≤ s.selectorCalls + 2 * (n + 1) + 1
                omega
              · show (loopStep mode (envs (k + 0)) s).sleeps
                    ≤ s.sleeps + 2 * (n + 1)
                omega
            · have htl : (loopStep mode (envs (k + 0)) s).tried.length
                  = s.tried.length + 1 := by
                rw [d3, List.length_cons]
              have hten : allEnabled (loopStep mode (envs (k + 0)) s) := by
                intro i hi
                rw [d9 i]
                exact hen i (by omega)
              have htnd2 : (loopStep mode (envs (k + 0)) s).tried.Nodup := by
                rw [d3]
                exact List.nodup_cons.mpr ⟨hex, hnd⟩
              have htbd2 : ∀ i ∈ (loopStep mode (envs (k + 0)) s).tried,
                  i < (loopStep mode (envs (k + 0)) s).services.length := by
                intro i hi
                rw [d3] at hi
                rw [d8]
                rcases List.mem_cons.mp hi with h1 | h2
                · subst h1
                  exact hlt
                · exact hbd i h2
              have hm2 : (loopStep mode (envs (k + 0)) s).services.length
                  - (loopStep mode (envs (k + 0)) s).tried.length ≤ n := by
                omega
              obtain ⟨j, hj, hjd, hjc, hjs⟩ :=
                ih (k + 1) (loopStep mode (envs (k + 0)) s) hten htnd2 htbd2 hm2
              have hrw : runFrom mode envs k s 1
                  = loopStep mode (envs (k + 0)) s := rfl
              refine ⟨1 + j, by omega, ?_, ?_, ?_⟩
              · rw [runFrom_add mode envs k s 1 j, hrw]
                exact hjd
              · rw [runFrom_add mode envs k s 1 j, hrw]
                omega
              · rw [runFrom_add mode envs k s 1 j, hrw]
                omega
          | none =>
            obtain ⟨n1, n2, n3, n4, n5, n6, n7, n8, n9, n10, n11, n12⟩ :=
              loopStep_null_facts mode (envs (k + 0)) s hdf hguard habf hsel
            rcases n12 with hd1 | ⟨hd2, hsl, hatt, hfresh⟩
            · refine ⟨1, by omega, hd1, ?_, ?_⟩
              · show (loopStep mode (envs (k + 0)) s).selectorCalls
                    ≤ s.selectorCalls + 2 * (n + 1) + 1
                omega
              · show (loopStep mode (envs (k + 0)) s).sleeps
                    ≤ s.sleeps + 2 * (n + 1)
                omega
            · have htdone : (loopStep mode (envs (k + 0)) s).done = false :=
                hd2.trans hdf
              have hten : allEnabled (loopStep mode (envs (k + 0)) s) := by
                intro i hi
                rw [n9 i]
                exact hen i (by omega)
              have htnd2 : (loopStep mode (envs (k + 0)) s).tried.Nodup := by
                rw [n1]
                exact hnd
              have htbd2 : ∀ i ∈ (loopStep mode (envs (k + 0)) s).tried,
                  i < (loopStep mode (envs (k + 0)) s).services.length := by
                intro i hi
                rw [n1] at hi
                rw [n8]
                exact hbd i hi
              rcases loopStep_of_fresh mode (envs (k + 1))
                  (loopStep mode (envs (k + 0)) s) htdone hfresh hten htnd2
                  htbd2
                with ⟨x1, x2, x3⟩ | ⟨idx, y1, y2, y3, y4, y5, y6, y7⟩
              · have hrw2 : runFrom mode envs k s 2
                    = loopStep mode (envs (k + 1))
                        (loopStep mode (envs (k + 0)) s) := rfl
                refine ⟨2, by omega, ?_, ?_, ?_⟩
                · rw [hrw2]
                  exact x1
                · rw [hrw2]
                  omega
                · rw [hrw2]
                  omega
              · rcases Bool.eq_false_or_eq_true
                    (loopStep mode (envs (k + 1))
                      (loopStep mode (envs (k + 0)) s)).done with htd2 | htf2
                · have hrw2 : runFrom mode envs k s 2
                      = loopStep mode (envs (k + 1))
                          (loopStep mode (envs (k + 0)) s) := rfl
                  refine ⟨2, by omega, ?_, ?_, ?_⟩
                  · rw [hrw2]
                    exact htd2
                  · rw [hrw2]
                    omega
                  · rw [hrw2]
                    omega
                · have ht2l : (loopStep mode (envs (k + 1))
                      (loopStep mode (envs (k + 0)) s)).tried.length
                      = s.tried.length + 1 := by
                    rw [y3, List.length_cons, n1]
                  have hten2 : allEnabled (loopStep mode (envs (k + 1))
                      (loopStep mode (envs (k + 0)) s)) := by
                    intro i hi
                    rw [y7 i, n9 i]
                    exact hen i (by omega)
                  have hy1 : idx ∉ s.tried := by
                    rw [n1] at y1
                    exact y1
                  have htnd3 : (loopStep mode (envs (k + 1))
                      (loopStep mode (envs (k + 0)) s)).tried.Nodup := by
                    rw [y3, n1]
                    exact List.nodup_cons.mpr ⟨hy1, hnd⟩
                  have htbd3 : ∀ i ∈ (loopStep mode (envs (k + 1))
                        (loopStep mode (envs (k + 0)) s)).tried,
                      i < (loopStep mode (envs (k + 1))
                        (loopStep mode (envs (k + 0)) s)).services.length := by
                    intro i hi
                    rw [y3, n1] at hi
                    rw [y6, n8]
                    rcases List.mem_cons.mp hi with h1 | h2
                    · subst h1
                      omega
                    · exact hbd i h2
                  have hm3 : (loopStep mode (envs (k + 1))
                        (loopStep mode (envs (k + 0)) s)).services.length
                      - (loopStep mode (envs (k + 1))
                          (loopStep mode (envs (k + 0)) s)).tried.length
                      ≤ n := by
                    omega
                  obtain ⟨j, hj, hjd, hjc, hjs⟩ :=
                    ih (k + 2) (loopStep mode (envs (k + 1))
                      (loopStep mode (envs (k + 0)) s)) hten2 htnd3 htbd3 hm3
                  have hrw2 : runFrom mode envs k s 2
                      = loopStep mode (envs (k + 1))
                          (loopStep mode (envs (k + 0)) s) := rfl
                  refine ⟨2 + j, by omega, ?_, ?_, ?_⟩
                  · rw [runFrom_add mode envs k s 2 j, hrw2]
                    exact hjd
                  · rw [runFrom_add mode envs k s 2 j, hrw2]
                    omega
                  · rw [runFrom_add mode envs k s 2 j, hrw2]
                    omega
      · have heq : loopStep mode (envs (k + 0)) s = { s with done := true } :=
          loopStep_eq_exit mode (envs (k + 0)) s hdf (fun hc => hguard hc.1)
        refine ⟨1, by omega, ?_, ?_, ?_⟩
        · show (loopStep mode (envs (k + 0)) s).done = true
          rw [heq]
        · show (loopStep mode (envs (k + 0)) s).selectorCalls
              ≤ s.selectorCalls + 2 * (n + 1) + 1
          rw [heq]
          show s.selectorCalls ≤ s.selectorCalls + 2 * (n + 1) + 1
          omega
        · show (loopStep mode (envs (k + 0)) s).sleeps
              ≤ s.sleeps + 2 * (n + 1)
          rw [heq]
          show s.sleeps ≤ s.sleeps + 2 * (n + 1)
          omega

/-- C7 (amended): if every tracked upstream is enabled, the failover loop
terminates for every adapter, breaker and clock behaviour, within at most
`2·trackedCount + 1` iterations, selector calls and backoff sleeps: some
state within `2·trackedCount + 1` steps has left the loop having made at
most `2·trackedCount + 1` selector calls and at most `2·trackedCount`
backoff sleeps.  (The unamended `trackedCount + 1` / `trackedCount` budget
is refuted by the counterexample, where staggered breaker resets during
the backoff sleeps force two selector calls and two sleeps per tracked
upstream; and without the enabled proviso the re-probe branch — which
ignores the `enabled` flag — can keep the loop alive forever.) -/
theorem failover_terminates_of_all_enabled (mode : RoutingMode)
    (envs : Nat → IterEnv) (services : List ServiceState) (ptr : Nat)
    (hen : ∀ ts ∈ services, ts.enabled = true) :
    ∃ k, k ≤ 2 * services.length + 1 ∧
      (loopRun mode envs (initReqState services ptr) k).done = true ∧
      (loopRun mode envs (initReqState services ptr) k).selectorCalls
        ≤ 2 * services.length + 1 ∧
      (loopRun mode envs (initReqState services ptr) k).sleeps
        ≤ 2 * services.length := by
  have hen' : allEnabled (initReqState services ptr) := by
    intro i hi
    show (services.getD i dummyService).enabled = true
    have hm : services.getD i dummyService ∈ services := by
      rw [List.getD_eq_getElem services dummyService hi]
      exact List.getElem_mem hi
    exact hen _ hm
  obtain ⟨j, hj, hjd, hjc, hjs⟩ :=
    terminates_aux mode envs services.length 0 (initReqState services ptr)
      hen' List.nodup_nil (fun i hi => absurd hi (List.not_mem_nil i))
      (Nat.le_refl _)
  have hLR : loopRun mode envs (initReqState services ptr) j
      = runFrom mode envs 0 (initReqState services ptr) j := by
    have h0 := loopRun_eq_runFrom mode envs (initReqState services ptr) 0 j
    simpa [loopRun] using h0
  refine ⟨j, hj, ?_, ?_, ?_⟩
  · rw [hLR]
    exact hjd
  · rw [hLR]
    have h1 : (initReqState services ptr).selectorCalls = 0 := rfl
    omega
  · rw [hLR]
    have h2 : (initReqState services ptr).sleeps = 0 := rfl
    omega

theorem failover_terminates_of_all_enabled_witness :
    (∀ ts ∈ [wSvc], ts.enabled = true) ∧
    ∃ k, k ≤ 2 * [wSvc].length + 1 ∧
      (loopRun .smart wEnvs (initReqState [wSvc] 0) k).done = true ∧
      (loopRun .smart wEnvs (initReqState [wSvc] 0) k).selectorCalls
        ≤ 2 * [wSvc].length + 1 ∧
      (loopRun .smart wEnvs (initReqState [wSvc] 0) k).sleeps
        ≤ 2 * [wSvc].length :=
  ⟨by decide,
   failover_terminates_of_all_enabled .smart wEnvs [wSvc] 0 (by decide)⟩

/-- C7 counterexample: three enabled tracked upstreams (one closed, two
with open breakers whose reset deadlines expire during the backoff
sleeps).  The request terminates only after 5 selector calls and 4 backoff
sleeps, exceeding the claimed budget of `trackedCount + 1 = 4` selector
calls and `trackedCount = 3` sleeps: each open breaker costs one
null-selector round (sleep + re-probe) and then one dispatched attempt
with its retry sleep. -/
theorem failover_budget_cex :
    cexServicesC7.length = 3 ∧
    (loopRun .smart cexEnvsC7 (initReqState cexServicesC7 0) 6).done = true ∧
    (loopRun .smart cexEnvsC7
      (initReqState cexServicesC7 0) 6).selectorCalls = 5 ∧
    (loopRun .smart cexEnvsC7 (initReqState cexServicesC7 0) 6).sleeps = 4 ∧
    (∀ k, k < 6 →
      (loopRun .smart cexEnvsC7 (initReqState cexServicesC7 0) k).done
        = false) := by
  decide

theorem llStep_init :
    loopRun .smart llEnvs (initReqState llServices 0) 1 = llState 0 := by
  decide

theorem llStep (c : Nat) :
    loopStep .smart (failEnv 0 0 0 0) (llState c) = llState (c + 1) := rfl

theorem llRun (c : Nat) :
    loopRun .smart llEnvs (initReqState llServices 0) (c + 1) = llState c := by
  induction c with
  | zero => exact llStep_init
  | succ n ih =>
    show loopStep .smart (llEnvs (n + 1))
      (loopRun .smart llEnvs (initReqState llServices 0) (n + 1))
        = llState (n + 1)
    rw [ih]
    exact llStep n

/-- Companion to the C7 correction: with one enabled, failing upstream
next to a disabled upstream whose breaker stays closed, the failover loop
never terminates.  The selector (which honours `enabled`) keeps returning
null, while the re-probe taken on a null selection (which ignores
`enabled`) keeps finding the disabled upstream available, so every
iteration backs off and continues. -/
theorem reprobe_livelock :
    ∀ k, (loopRun .smart llEnvs (initReqState llServices 0) k).done
      = false := by
  intro k
  cases k with
  | zero => rfl
  | succ n =>
    rw [llRun n]
    rfl
